import Mathlib

/-!
# End-to-end promotion test harness (`test-e2e/e2e.go`)

A shallow embedding of the harness: Go values become Lean data, every
interaction with the outside world (subprocesses, the registry library, the
file system, standard output, the logger) is an `Event` appended to an
interaction trace, and the outside world is an `Env` whose answers may depend
on the whole interaction history.  Process termination (`os.Exit`,
`klog.Fatal`) is the `Res.exit` outcome.
-/

namespace E2E

/-! ## Go values -/

/-- A Go slice value: either the nil slice or a non-nil slice with its
elements.  `reflect.DeepEqual` tells the two apart even when both are empty. -/
inductive GoSlice (α : Type) where
  | nil : GoSlice α
  | mk (elems : List α) : GoSlice α
  deriving DecidableEq

/-- The elements of a slice; the nil slice has none. -/
def GoSlice.toList {α : Type} : GoSlice α → List α
  | GoSlice.nil => []
  | GoSlice.mk l => l

/-- Go `s == nil` for a slice. -/
def GoSlice.isNil {α : Type} : GoSlice α → Bool
  | GoSlice.nil => true
  | GoSlice.mk _ => false

/-- Go `len(s)`. -/
def GoSlice.len {α : Type} (s : GoSlice α) : Nat := s.toList.length

/-- Modelled from the spec: the type `reg.Image` is declared in
`lib/dockerregistry`, which is not part of the sources at hand.  The spec
describes an image record as the triple name, digest, tag, each a plain
string, compared field by field. -/
structure Image where
  name : String
  digest : String
  tag : String
  deriving DecidableEq

/-- Modelled from the spec: `reg.RegistryContext`, a registry name with the
service account used for it (empty when there is none). -/
structure RegistryContext where
  Name : String
  ServiceAccount : String
  deriving DecidableEq

/-- Modelled from the spec: `reg.Manifest`.  The harness only ever reads the
registry list of a manifest; the rest is carried opaquely as `Payload`. -/
structure Manifest where
  Registries : List RegistryContext
  Payload : String
  deriving DecidableEq

/-- Go `RegistrySnapshot`: a registry name with the declared image lists
before and after promotion.  A list left out of the YAML document loads as the
nil slice. -/
structure RegistrySnapshot where
  Name : String
  Before : GoSlice Image
  After : GoSlice Image
  deriving DecidableEq

/-- Go `E2ETest`. -/
structure E2ETest where
  Name : String
  Manifest : E2E.Manifest
  Snapshots : List RegistrySnapshot
  deriving DecidableEq

/-! ## `reflect.DeepEqual` and `fmt` on image lists -/

/-- The rule of `reflect.DeepEqual` for structs: all fields deeply equal. -/
def deepEqualImage (a b : Image) : Bool :=
  decide (a.name = b.name) && decide (a.digest = b.digest) && decide (a.tag = b.tag)

/-- Element-wise part of `reflect.DeepEqual` on slices: same length and
corresponding elements deeply equal. -/
def deepEqualElems : List Image → List Image → Bool
  | [], [] => true
  | a :: as, b :: bs => deepEqualImage a b && deepEqualElems as bs
  | _, _ => false

/-- The rule of `reflect.DeepEqual` for slices: both nil or both non-nil, same
length, corresponding elements deeply equal. -/
def deepEqual : GoSlice Image → GoSlice Image → Bool
  | GoSlice.nil, GoSlice.nil => true
  | GoSlice.mk a, GoSlice.mk b => deepEqualElems a b
  | _, _ => false

/-- Elements joined by single spaces, as `fmt` prints the operands of a slice
or struct under `%v`. -/
def spaceJoin : List String → String
  | [] => ""
  | [s] => s
  | s :: t :: rest => s ++ " " ++ spaceJoin (t :: rest)

/-- Formatting of an image record under `%v`: the fields between braces. -/
def fmtImage (i : Image) : String :=
  "\x7b" ++ spaceJoin [i.name, i.digest, i.tag] ++ "\x7d"

/-- Formatting of an image list under `%v`: the elements between brackets; a
nil slice prints like an empty one. -/
def fmtImages (s : GoSlice Image) : String :=
  "[" ++ spaceJoin (s.toList.map fmtImage) ++ "]"

/-- Formatting of a string list under `%v`. -/
def fmtStrings (l : List String) : String :=
  "[" ++ spaceJoin l ++ "]"

/-- Modelled from the spec: what `%T` prints for a `[]reg.Image` value.  The
package clause of `lib/dockerregistry` is not part of the sources at hand; the
package is taken to be named after its directory.  No statement below depends
on the spelling. -/
def imagesTypeName : String := "[]dockerregistry.Image"

/-- Go `checkEqual(got, expected)`: `none` is the nil error, `some msg` the
error whose text is the conflict-marker diff. -/
def checkEqual (got expected : GoSlice Image) : Option String :=
  if deepEqual got expected = false then
    some ("<<<<<<< got (type " ++ imagesTypeName ++ ")\n"
      ++ fmtImages got ++ "\n=======\n"
      ++ fmtImages expected ++ "\n>>>>>>> expected (type " ++ imagesTypeName ++ ")")
  else
    none

/-! ## The part of package `strings` used by `getBazelOption`

Text is handled as a list of characters. -/

/-- Go `strings.Split(s, sep)` for a separator of exactly one character, the
only way the harness calls it.  The result is never empty: splitting the empty
text gives one empty piece. -/
def stringsSplit (sep : Char) : List Char → List (List Char)
  | [] => [[]]
  | c :: cs =>
    if c = sep then [] :: stringsSplit sep cs
    else
      match stringsSplit sep cs with
      | [] => [[c]]
      | w :: ws => (c :: w) :: ws

/-- Go `strings.Contains(s, substr)`: `substr` occurs in `s` as a contiguous
piece. -/
def stringsContains : List Char → List Char → Bool
  | [], sub => sub.isEmpty
  | c :: cs, sub => sub.isPrefixOf (c :: cs) || stringsContains cs sub

/-- Go `strings.TrimSuffix(s, suffix)`. -/
def stringsTrimSuffix (s suffix : List Char) : List Char :=
  if suffix.isSuffixOf s then s.take (s.length - suffix.length) else s

/-- The loop of `getBazelOption` over the lines of the script output: the
first line that contains `o` and splits into exactly two words decides. -/
def scanLines (o : List Char) : List (List Char) → List Char
  | [] => []
  | line :: rest =>
    if stringsContains line o = true then
      match stringsSplit ' ' line with
      | [_, v] => v
      | _ => scanLines o rest
    else scanLines o rest

/-- The line-scanning step of `getBazelOption` applied to the captured
standard output of the companion script. -/
def scanOutput (stdout o : List Char) : List Char :=
  scanLines o (stringsSplit '\n' (stringsTrimSuffix stdout ['\n']))

/-! ## The outside world -/

/-- What running a subprocess gives back: both captured streams and the error
of `cmd.Run()` (`none` for the nil error). -/
structure CmdResult where
  stdout : String
  stderr : String
  err : Option String
  deriving DecidableEq

/-- One (image, digest) pair found in a registry by the recursive inventory
read. -/
structure InvEntry where
  registry : String
  image : String
  digest : String
  deriving DecidableEq

/-- One interaction of the harness with the outside world, with the answer it
got where there is one. -/
inductive Event where
  /-- Text written to standard output by `fmt.Printf` or `fmt.Println`. -/
  | print (text : String)
  /-- A message logged with `klog.Errorf`. -/
  | klogError (text : String)
  /-- A message logged with `klog.Fatal`, which then ends the process. -/
  | klogFatal (text : String)
  /-- A subprocess run to completion in directory `dir`. -/
  | exec (dir cmd : String) (args : List String) (res : CmdResult)
  /-- The call `reg.MakeSyncContext`. -/
  | makeSyncContext (mfest : Manifest) (err : Option String)
  /-- The call `sc.PopulateTokens`. -/
  | populateTokens (err : Option String)
  /-- The call `sc.ReadRegistries`, answered by the inventory it stores. -/
  | readRegistries (inv : List InvEntry)
  /-- The call `sc.ClearRepository` for one registry. -/
  | clearRepository (registry : String)
  /-- One delete command issued while clearing a registry. -/
  | delete (registry image digest : String) (err : Option String)
  /-- The call `ioutil.TempFile`. -/
  | tempFile (path : String) (err : Option String)
  /-- Writing the serialised manifest to the temporary file. -/
  | write (path content : String) (err : Option String)
  /-- Closing the temporary file. -/
  | close (path : String) (err : Option String)
  /-- The deferred `os.Remove`. -/
  | remove (path : String)
  deriving DecidableEq

/-- The outside world.  Every answer may depend on the interaction history so
far, so that any sequence of outcomes of the external commands is some `Env`.
The YAML codec and the process environment are plain functions. -/
structure Env where
  getenv : String → String
  run : List Event → String → String → List String → CmdResult
  makeSyncContext : List Event → Manifest → Option String
  populateTokens : List Event → Option String
  readRegistries : List Event → Manifest → List InvEntry
  deleteImage : List Event → String → String → String → Option String
  yamlMarshal : Manifest → String × Option String
  tempFile : List Event → String × Option String
  write : List Event → String → String → Option String
  close : List Event → String → Option String
  yamlUnmarshalImages : String → GoSlice Image → GoSlice Image × Option String

/-- Outcome of a piece of the harness started on some interaction history:
it returns a value, or the process ends with an exit code; either way the
history reached is recorded. -/
inductive Res (α : Type) where
  | ok (val : α) (tr : List Event) : Res α
  | exit (code : Nat) (tr : List Event) : Res α
  deriving DecidableEq

/-- The interaction history reached. -/
def Res.trace {α : Type} : Res α → List Event
  | Res.ok _ tr => tr
  | Res.exit _ tr => tr

/-- Whether the piece returned to its caller. -/
def Res.isOk {α : Type} : Res α → Bool
  | Res.ok _ _ => true
  | Res.exit _ _ => false

/-- A piece of the harness: from the interaction history so far to an
outcome. -/
def M (α : Type) : Type := List Event → Res α

/-- Sequencing: a process exit skips everything that follows. -/
def M.bind {α β : Type} (m : M α) (f : α → M β) : M β := fun tr =>
  match m tr with
  | Res.ok a tr1 => f a tr1
  | Res.exit c tr1 => Res.exit c tr1

instance : Monad M where
  pure a := fun tr => Res.ok a tr
  bind := M.bind

/-- Record an interaction that has no answer. -/
def emit (e : Event) : M Unit := fun tr => Res.ok () (tr ++ [e])

/-- Ask the outside world, given the history so far, and record the
interaction together with the answer. -/
def call {β : Type} (ask : List Event → β) (record : β → Event) : M β := fun tr =>
  Res.ok (ask tr) (tr ++ [record (ask tr)])

/-- Go `os.Exit(code)`. -/
def osExit {α : Type} (code : Nat) : M α := fun tr => Res.exit code tr

/-- Go `klog.Fatal(...)`: log the message, then exit with status 255. -/
def klogFatal {α : Type} (msg : String) : M α := fun tr =>
  Res.exit 255 (tr ++ [Event.klogFatal msg])

/-- Run a subprocess (`exec.Command(cmd, args...)` with `Dir = dir`, both
streams captured, then `Run()`). -/
def runCmd (env : Env) (dir cmd : String) (args : List String) : M CmdResult :=
  call (fun tr => env.run tr dir cmd args) (Event.exec dir cmd args)

/-! ## The harness -/

/-- Go `execCommand`: on failure both streams go to the error log and the
caller gets two empty strings and the error. -/
def execCommand (env : Env) (cwd cmdString : String) (args : List String) :
    M (String × String × Option String) := do
  let res ← runCmd env cwd cmdString args
  match res.err with
  | some err => do
    emit (Event.klogError ("for command " ++ cmdString ++ ":\nstdout:\n" ++ res.stdout
      ++ "stderr:\n" ++ res.stderr ++ "\n"))
    pure ("", "", some err)
  | none => pure (res.stdout, res.stderr, none)

/-- Go `getBazelOption`. -/
def getBazelOption (env : Env) (o : String) : M String := do
  let (stdout, _, err) ← execCommand env "" (env.getenv "PWD" ++ "/workspace_status.sh") []
  match err with
  | some _ => pure ""
  | none => pure (String.mk (scanOutput stdout.data o.data))

/-- Go `extractSvcAcc`. -/
def extractSvcAcc (registry : String) (mfest : Manifest) : String :=
  go mfest.Registries
where
  /-- The loop over the registries of the manifest. -/
  go : List RegistryContext → String
    | [] => ""
    | r :: rest => if r.Name = registry then r.ServiceAccount else go rest

/-- The argument list built at the start of `getSnapshot`. -/
def snapshotInvocation (cwd registry : String) (mfest : Manifest) : List String :=
  let invocation := ["run", "--workspace_status_command=" ++ cwd ++ "/workspace_status.sh",
    ":cip", "--", "-snapshot=" ++ registry]
  let svcAcc := extractSvcAcc registry mfest
  if svcAcc.length > 0 then invocation ++ ["-snapshot-service-account=" ++ svcAcc]
  else invocation

/-- Go `make([]reg.Image, 0)`: the empty, non-nil list. -/
def emptyImages : GoSlice Image := GoSlice.mk []

/-- Go `getSnapshot`. -/
def getSnapshot (env : Env) (cwd registry : String) (mfest : Manifest) :
    M (GoSlice Image × Option String) := do
  let res ← runCmd env cwd "bazel" (snapshotInvocation cwd registry mfest)
  match res.err with
  | some err => do
    emit (Event.print ("stdout " ++ res.stdout ++ "\n"))
    emit (Event.print ("stderr " ++ res.stderr ++ "\n"))
    pure (GoSlice.nil, some err)
  | none =>
    match env.yamlUnmarshalImages res.stdout emptyImages with
    | (_, some err) => pure (GoSlice.nil, some err)
    | (images, none) => pure (images, none)

/-- Modelled from the spec: the deletion pass of `sc.ClearRepository` (in
`lib/dockerregistry`, not part of the sources at hand): one delete command per
(image, digest) pair discovered, a single deletion failure being fatal for the
run. -/
def deleteAll (env : Env) (regName : String) : List InvEntry → M Unit
  | [] => pure ()
  | e :: rest => do
    let err ← call (fun tr => env.deleteImage tr regName e.image e.digest)
      (Event.delete regName e.image e.digest)
    match err with
    | some msg => klogFatal msg
    | none => deleteAll env regName rest

/-- Modelled from the spec: `sc.ClearRepository` (in `lib/dockerregistry`, not
part of the sources at hand), which deletes every image that the inventory
read found in the named registry. -/
def ClearRepository (env : Env) (regName : String) (inv : List InvEntry) : M Unit := do
  emit (Event.clearRepository regName)
  deleteAll env regName (inv.filter (fun e => decide (e.registry = regName)))

/-- Go `clearRepository`: hands the deletion-command maker to
`sc.ClearRepository` and returns nothing. -/
def clearRepository (env : Env) (regName : String) (inv : List InvEntry) : M Unit :=
  ClearRepository env regName inv

/-- The loop of `testSetup` that clears every registry of the manifest. -/
def clearRegistries (env : Env) (inv : List InvEntry) : List RegistryContext → M Unit
  | [] => pure ()
  | rc :: rest => do
    emit (Event.print ("CLEARING REPO " ++ rc.Name ++ "\n"))
    clearRepository env rc.Name inv
    clearRegistries env inv rest

/-- The table `cmds` of `testSetup`: the golden-image publication commands. -/
def goldenCmds (pwd pushRepo : String) : List (List String) :=
  [ ["bazel", "build", "--host_force_python=PY2",
      "--workspace_status_command=" ++ pwd ++ "/workspace_status.sh",
      "//test-e2e:golden-images-loadable.tar"],
    ["bazel", "run", "--host_force_python=PY2",
      "--workspace_status_command=" ++ pwd ++ "/workspace_status.sh",
      "//test-e2e:push-golden"],
    ["docker", "manifest", "create",
      pushRepo ++ "/golden:1.0",
      pushRepo ++ "/golden:1.0-linux_amd64",
      pushRepo ++ "/golden:1.0-linux_s390x"],
    ["docker", "manifest", "annotate", "--arch=s390x",
      pushRepo ++ "/golden:1.0",
      pushRepo ++ "/golden:1.0-linux_s390x"],
    ["docker", "manifest", "inspect", pushRepo ++ "/golden:1.0"],
    ["docker", "manifest", "push", "--purge", pushRepo ++ "/golden:1.0"] ]

/-- The loop of `testSetup` that runs the commands of the table in order and
returns the first error. -/
def execCmds (env : Env) (cwd : String) : List (List String) → M (Option String)
  | [] => pure none
  | cmd :: rest => do
    emit (Event.print ("execing cmd " ++ fmtStrings cmd ++ "\n"))
    let (stdout, stderr, err) ← execCommand env cwd (cmd.headD "") cmd.tail
    match err with
    | some e => pure (some e)
    | none => do
      emit (Event.print (stdout ++ "\n"))
      emit (Event.print (stderr ++ "\n"))
      execCmds env cwd rest

/-- The second half of `testSetup`, from the read of `PWD` on: look up the
push repository and publish the golden image. -/
def publishGolden (env : Env) (cwd : String) : M (Option String) := do
  let pwd := env.getenv "PWD"
  let pushRepo ← getBazelOption env "STABLE_TEST_STAGING_IMG_REPOSITORY"
  if pushRepo = "" then
    pure (some "could not dereference STABLE_TEST_STAGING_IMG_REPOSITORY")
  else
    execCmds env cwd (goldenCmds pwd pushRepo)

/-- The first half of `testSetup`: build the sync context, read the
registries, clear each registry of the manifest. -/
def resetRegistries (env : Env) (mfest : Manifest) : M Unit := do
  let scErr ← call (fun tr => env.makeSyncContext tr mfest) (Event.makeSyncContext mfest)
  match scErr with
  | some err => klogFatal err
  | none => do
    let tokErr ← call env.populateTokens Event.populateTokens
    match tokErr with
    | some err => klogFatal err
    | none => do
      let inv ← call (fun tr => env.readRegistries tr mfest) Event.readRegistries
      clearRegistries env inv mfest.Registries

/-- Go `testSetup`. -/
def testSetup (env : Env) (cwd : String) (mfest : Manifest) : M (Option String) := do
  resetRegistries env mfest
  publishGolden env cwd

/-- Go `writeTempManifest`. -/
def writeTempManifest (env : Env) (mfest : Manifest) : M (String × Option String) :=
  match env.yamlMarshal mfest with
  | (_, some err) => pure ("", some ("cannot serialize manifest to yaml: " ++ err))
  | (bs, none) => do
    let (path, err) ← call env.tempFile (fun r => Event.tempFile r.1 r.2)
    match err with
    | some e => klogFatal e
    | none => do
      let werr ← call (fun tr => env.write tr path bs) (Event.write path bs)
      match werr with
      | some e => klogFatal e
      | none => do
        let cerr ← call (fun tr => env.close tr path) (Event.close path)
        match cerr with
        | some e => klogFatal e
        | none => pure (path, none)

/-- The argument list with which `runPromotion` starts the promotion tool. -/
def promotionArgs (cwd manifestPath : String) : List String :=
  ["run", "--workspace_status_command=" ++ cwd ++ "/workspace_status.sh", ":cip", "--",
    "-dry-run=false", "-verbosity=3", "-manifest=" ++ manifestPath]

/-- Go `runPromotion`; the deferred removal of the manifest file runs last on
both paths. -/
def runPromotion (env : Env) (cwd manifestPath : String) : M (Option String) := do
  let res ← runCmd env cwd "bazel" (promotionArgs cwd manifestPath)
  match res.err with
  | some err => do
    emit (Event.print ("stdout " ++ res.stdout ++ "\n"))
    emit (Event.print ("stderr " ++ res.stderr ++ "\n"))
    emit (Event.remove manifestPath)
    pure (some err)
  | none => do
    emit (Event.print (res.stdout ++ "\n"))
    emit (Event.remove manifestPath)
    pure none

/-- The first inner loop of `main`: capture each declared registry before
promotion and compare with the declared `Before` list. -/
def preVerify (env : Env) (cwd : String) (mfest : Manifest) : List RegistrySnapshot → M Unit
  | [] => pure ()
  | snapshot :: rest => do
    let (images, err) ← getSnapshot env cwd snapshot.Name mfest
    match err with
    | some _ => klogFatal ("could not get pre-promotion snapshot of repo" ++ snapshot.Name)
    | none =>
      match checkEqual snapshot.Before images with
      | some msg => do
        emit (Event.print (msg ++ "\n"))
        osExit 1
      | none => preVerify env cwd mfest rest

/-- The second inner loop of `main`: capture each declared registry after
promotion and compare with the declared `After` list. -/
def postVerify (env : Env) (cwd : String) (mfest : Manifest) : List RegistrySnapshot → M Unit
  | [] => pure ()
  | snapshot :: rest => do
    let (images, err) ← getSnapshot env cwd snapshot.Name mfest
    match err with
    | some _ => klogFatal ("could not get post-promotion snapshot of repo" ++ snapshot.Name)
    | none =>
      match checkEqual snapshot.After images with
      | some msg => do
        emit (Event.print (msg ++ "\n"))
        osExit 1
      | none => postVerify env cwd mfest rest

/-- The part of the loop body of `main` that follows the pre-promotion
checks: write the manifest, promote, check the registries again. -/
def promoteAndVerify (env : Env) (cwd : String) (t : E2ETest) : M Unit := do
  let (manifestPath, err) ← writeTempManifest env t.Manifest
  match err with
  | some e => klogFatal ("could not write Manifest file:" ++ e)
  | none => do
    let perr ← runPromotion env cwd manifestPath
    match perr with
    | some e => klogFatal ("error with promotion:" ++ e)
    | none => do
      postVerify env cwd t.Manifest t.Snapshots
      emit (Event.print ("e2e test '" ++ t.Name ++ "': OK\n"))

/-- The body of the loop of `main` for one test case. -/
def runTestCase (env : Env) (cwd : String) (t : E2ETest) : M Unit := do
  emit (Event.print ("Running e2e test '" ++ t.Name ++ "'...\n"))
  let err ← testSetup env cwd t.Manifest
  match err with
  | some e => klogFatal ("error with test setup:" ++ e)
  | none => do
    preVerify env cwd t.Manifest t.Snapshots
    promoteAndVerify env cwd t

/-- The loop of `main` over the loaded suite (`for _, t := range ts`), with
`cwd` the value of the `-repo-root` flag. -/
def mainLoop (env : Env) (cwd : String) : List E2ETest → M Unit
  | [] => pure ()
  | t :: rest => do
    runTestCase env cwd t
    mainLoop env cwd rest

/-! ## Properties of interaction histories -/

/-- The interactions that an outcome added to the history `tr` it started
from. -/
def Res.added {α : Type} (tr : List Event) (r : Res α) : List Event :=
  r.trace.drop tr.length

/-- Every interaction that `m` adds to the history satisfies `P`, and when `m`
returns to its caller they all satisfy `Q` as well. -/
def Emits {α : Type} (P Q : Event → Prop) (m : M α) : Prop :=
  ∀ tr, ∃ new, (m tr).trace = tr ++ new ∧ (∀ e ∈ new, P e) ∧
    ((m tr).isOk = true → ∀ e ∈ new, Q e)

/-- The promotion tool started in mutating mode: `bazel` with the argument
`-dry-run=false`. -/
def isPromotionCmd : Event → Bool
  | Event.exec _ cmd args _ => decide (cmd = "bazel" ∧ "-dry-run=false" ∈ args)
  | _ => false

/-- The promotion tool started in snapshot mode: `bazel` with an argument that
begins with `-snapshot=`. -/
def isSnapshotCmd : Event → Bool
  | Event.exec _ cmd args _ =>
    decide (cmd = "bazel") && args.any (fun a => "-snapshot=".data.isPrefixOf a.data)
  | _ => false

/-- A golden-image publication command: any `docker` command, the `bazel`
build of the golden images, or the `bazel` run that pushes them. -/
def isGoldenCmd : Event → Bool
  | Event.exec _ cmd args _ =>
    decide (cmd = "docker") ||
      (decide (cmd = "bazel") &&
        (decide ("//test-e2e:golden-images-loadable.tar" ∈ args) ||
          decide ("//test-e2e:push-golden" ∈ args)))
  | _ => false

/-- A registry-clearing action: the call that clears a registry or one of the
delete commands it issues. -/
def isClearing : Event → Bool
  | Event.clearRepository _ => true
  | Event.delete _ _ _ _ => true
  | _ => false

/-- A delete command that failed. -/
def isFailedDelete : Event → Bool
  | Event.delete _ _ _ (some _) => true
  | _ => false

/-- A subprocess run. -/
def isExec : Event → Bool
  | Event.exec _ _ _ _ => true
  | _ => false

/-- An interaction that is neither a promotion, nor a snapshot capture, nor a
registry-clearing action. -/
def Quiet (e : Event) : Prop :=
  isPromotionCmd e = false ∧ isSnapshotCmd e = false ∧ isClearing e = false

/-- An interaction that is neither a promotion nor a registry-clearing
action. -/
def Probe (e : Event) : Prop :=
  isPromotionCmd e = false ∧ isClearing e = false

/-- No condition on an interaction. -/
def Any (_ : Event) : Prop := True

/-- Every declared snapshot, in declaration order, was captured without error
and found deeply equal to its declared `Before` list; the history goes from
`tr` to `tr2` meanwhile. -/
inductive PreChecked (env : Env) (cwd : String) (mfest : Manifest) :
    List RegistrySnapshot → List Event → List Event → Prop where
  | nil (tr : List Event) : PreChecked env cwd mfest [] tr tr
  | cons (s : RegistrySnapshot) (rest : List RegistrySnapshot) (images : GoSlice Image)
      (tr tr1 tr2 : List Event)
      (hcap : getSnapshot env cwd s.Name mfest tr = Res.ok (images, none) tr1)
      (heq : deepEqual s.Before images = true)
      (hrest : PreChecked env cwd mfest rest tr1 tr2) :
      PreChecked env cwd mfest (s :: rest) tr tr2

/-- Verification of the declared snapshots, taken in declaration order from
history `tr`, fails at some snapshot: every earlier one was captured and found
deeply equal to its declared list (`declared` picks `Before` or `After`), and
that one either could not be captured or differs from its declared list. -/
inductive VerifyFails (env : Env) (cwd : String) (mfest : Manifest)
    (declared : RegistrySnapshot → GoSlice Image) :
    List RegistrySnapshot → List Event → Prop where
  | captureError (s : RegistrySnapshot) (rest : List RegistrySnapshot)
      (images : GoSlice Image) (err : String) (tr tr1 : List Event)
      (hcap : getSnapshot env cwd s.Name mfest tr = Res.ok (images, some err) tr1) :
      VerifyFails env cwd mfest declared (s :: rest) tr
  | mismatch (s : RegistrySnapshot) (rest : List RegistrySnapshot)
      (images : GoSlice Image) (tr tr1 : List Event)
      (hcap : getSnapshot env cwd s.Name mfest tr = Res.ok (images, none) tr1)
      (hne : deepEqual (declared s) images = false) :
      VerifyFails env cwd mfest declared (s :: rest) tr
  | later (s : RegistrySnapshot) (rest : List RegistrySnapshot)
      (images : GoSlice Image) (tr tr1 : List Event)
      (hcap : getSnapshot env cwd s.Name mfest tr = Res.ok (images, none) tr1)
      (heq : deepEqual (declared s) images = true)
      (hrest : VerifyFails env cwd mfest declared rest tr1) :
      VerifyFails env cwd mfest declared (s :: rest) tr

/-- Processing of test case `t`, started on history `tr`, meets a failure:
setup ends the run or returns an error, a pre-promotion snapshot cannot be
captured or differs from its declared `Before` list, the manifest file cannot
be written, the promotion tool fails, or a post-promotion snapshot cannot be
captured or differs from its declared `After` list.  Each case records that
all the steps before the failing one succeeded. -/
inductive TestFailure (env : Env) (cwd : String) (t : E2ETest) (tr : List Event) : Prop where
  | setupFatal
      (h : (testSetup env cwd t.Manifest
        (tr ++ [Event.print ("Running e2e test '" ++ t.Name ++ "'...\n")])).isOk = false)
  | setupError (e : String) (trS : List Event)
      (h : testSetup env cwd t.Manifest
        (tr ++ [Event.print ("Running e2e test '" ++ t.Name ++ "'...\n")])
          = Res.ok (some e) trS)
  | preCheck (trS : List Event)
      (hs : testSetup env cwd t.Manifest
        (tr ++ [Event.print ("Running e2e test '" ++ t.Name ++ "'...\n")])
          = Res.ok none trS)
      (h : VerifyFails env cwd t.Manifest RegistrySnapshot.Before t.Snapshots trS)
  | manifestFatal (trS trP : List Event)
      (hs : testSetup env cwd t.Manifest
        (tr ++ [Event.print ("Running e2e test '" ++ t.Name ++ "'...\n")])
          = Res.ok none trS)
      (hp : PreChecked env cwd t.Manifest t.Snapshots trS trP)
      (h : (writeTempManifest env t.Manifest trP).isOk = false)
  | manifestError (trS trP : List Event) (path e : String) (trW : List Event)
      (hs : testSetup env cwd t.Manifest
        (tr ++ [Event.print ("Running e2e test '" ++ t.Name ++ "'...\n")])
          = Res.ok none trS)
      (hp : PreChecked env cwd t.Manifest t.Snapshots trS trP)
      (h : writeTempManifest env t.Manifest trP = Res.ok (path, some e) trW)
  | promotionError (trS trP : List Event) (path : String) (trW : List Event)
      (e : String) (trR : List Event)
      (hs : testSetup env cwd t.Manifest
        (tr ++ [Event.print ("Running e2e test '" ++ t.Name ++ "'...\n")])
          = Res.ok none trS)
      (hp : PreChecked env cwd t.Manifest t.Snapshots trS trP)
      (hw : writeTempManifest env t.Manifest trP = Res.ok (path, none) trW)
      (h : runPromotion env cwd path trW = Res.ok (some e) trR)
  | postCheck (trS trP : List Event) (path : String) (trW trR : List Event)
      (hs : testSetup env cwd t.Manifest
        (tr ++ [Event.print ("Running e2e test '" ++ t.Name ++ "'...\n")])
          = Res.ok none trS)
      (hp : PreChecked env cwd t.Manifest t.Snapshots trS trP)
      (hw : writeTempManifest env t.Manifest trP = Res.ok (path, none) trW)
      (hr : runPromotion env cwd path trW = Res.ok none trR)
      (h : VerifyFails env cwd t.Manifest RegistrySnapshot.After t.Snapshots trR)

/-- One line `key value` of the companion script output. -/
def renderLine (kv : List Char × List Char) : List Char :=
  kv.1 ++ ' ' :: kv.2

/-- The lines joined by newlines. -/
def joinLines : List (List Char) → List Char
  | [] => []
  | [l] => l
  | l :: m :: rest => l ++ '\n' :: joinLines (m :: rest)

/-- A companion script output made only of lines `key value`, with or without
a final newline. -/
def renderOutput (kvs : List (List Char × List Char)) (finalNewline : Bool) : List Char :=
  joinLines (kvs.map renderLine) ++ (if finalNewline then ['\n'] else [])

/-! ## Concrete worlds and suites used to exercise the statements -/

/-- A world in which everything succeeds: the companion script names the push
repository, every registry holds one image, subprocesses print nothing, and
the snapshot output parses to no images. -/
def envOk : Env where
  getenv := fun _ => "/w"
  run := fun _ _ cmd _ =>
    if cmd = "/w/workspace_status.sh" then
      ⟨"STABLE_TEST_STAGING_IMG_REPOSITORY gcr.io/s\n", "", none⟩
    else ⟨"", "", none⟩
  makeSyncContext := fun _ _ => none
  populateTokens := fun _ => none
  readRegistries := fun _ _ => [⟨"r", "img", "sha256:0"⟩]
  deleteImage := fun _ _ _ _ => none
  yamlMarshal := fun _ => ("m", none)
  tempFile := fun _ => ("/tmp/f", none)
  write := fun _ _ _ => none
  close := fun _ _ => none
  yamlUnmarshalImages := fun _ init => (init, none)

/-- Like `envOk`, but every subprocess writes to both streams and fails. -/
def envCmdFails : Env :=
  { envOk with run := fun _ _ _ _ => ⟨"partial output", "boom", some "exit status 1"⟩ }

/-- Like `envOk`, but every delete command fails. -/
def envDeleteFails : Env :=
  { envOk with deleteImage := fun _ _ _ _ => some "delete failed" }

/-- Like `envOk`, but the temporary manifest file cannot be created. -/
def envNoTempFile : Env :=
  { envOk with tempFile := fun _ => ("", some "no space left on device") }

/-- A manifest with the single registry `r` and its service account. -/
def mfestR : Manifest := ⟨[⟨"r", "sa"⟩], ""⟩

/-- The image record of the spec scenarios. -/
def imgFoo : Image := ⟨"foo", "sha256:aaa", "1.0"⟩

/-- A test case whose declared lists are the empty non-nil list: it passes in
`envOk`. -/
def testPass : E2ETest := ⟨"pass", mfestR, [⟨"r", GoSlice.mk [], GoSlice.mk []⟩]⟩

/-- A test case that declares one image before promotion: it fails its
pre-promotion check in `envOk`, where the registry is observed empty. -/
def testMismatch : E2ETest :=
  ⟨"mismatch", mfestR, [⟨"r", GoSlice.mk [imgFoo], GoSlice.mk []⟩]⟩

/-- A registry snapshot whose lists were left out of the suite document. -/
def snapOmitted : RegistrySnapshot := ⟨"r", GoSlice.nil, GoSlice.nil⟩

/-- A script output in which one key is the beginning of another. -/
def kvsOverlap : List (List Char × List Char) :=
  [("STABLE_REPO_MIRROR".data, "gcr.io/m".data), ("STABLE_REPO".data, "gcr.io/s".data)]

/-- A script output in which the value of one line is the key of the next. -/
def kvsValueHit : List (List Char × List Char) :=
  [("MIRROR_OF".data, "STABLE_REPO".data), ("STABLE_REPO".data, "gcr.io/s".data)]

/-- Like `envOk`, but the companion script prints the two lines of
`kvsOverlap`. -/
def envOverlap : Env :=
  { envOk with run := fun _ _ _ _ =>
      ⟨"STABLE_REPO_MIRROR gcr.io/m\nSTABLE_REPO gcr.io/s\n", "", none⟩ }

/-! ## Basic facts about sequencing -/

@[simp] theorem pure_apply {α : Type} (a : α) (tr : List Event) :
    (pure a : M α) tr = Res.ok a tr := rfl

@[simp] theorem bind_apply {α β : Type} (m : M α) (f : α → M β) (tr : List Event) :
    (m >>= f) tr = match m tr with
      | Res.ok a tr1 => f a tr1
      | Res.exit c tr1 => Res.exit c tr1 := rfl

@[simp] theorem emit_apply (e : Event) (tr : List Event) :
    emit e tr = Res.ok () (tr ++ [e]) := rfl

@[simp] theorem call_apply {β : Type} (ask : List Event → β) (record : β → Event)
    (tr : List Event) : call ask record tr = Res.ok (ask tr) (tr ++ [record (ask tr)]) := rfl

@[simp] theorem osExit_apply {α : Type} (code : Nat) (tr : List Event) :
    (osExit code : M α) tr = Res.exit code tr := rfl

@[simp] theorem klogFatal_apply {α : Type} (msg : String) (tr : List Event) :
    (klogFatal msg : M α) tr = Res.exit 255 (tr ++ [Event.klogFatal msg]) := rfl

@[simp] theorem trace_ok {α : Type} (a : α) (tr : List Event) : (Res.ok a tr).trace = tr := rfl

@[simp] theorem trace_exit {α : Type} (c : Nat) (tr : List Event) :
    (Res.exit c tr : Res α).trace = tr := rfl

@[simp] theorem isOk_ok {α : Type} (a : α) (tr : List Event) : (Res.ok a tr).isOk = true := rfl

@[simp] theorem isOk_exit {α : Type} (c : Nat) (tr : List Event) :
    (Res.exit c tr : Res α).isOk = false := rfl

theorem added_of_trace {α : Type} {tr new : List Event} {r : Res α}
    (h : r.trace = tr ++ new) : r.added tr = new := by
  simp [Res.added, h]

/-! ## `checkEqual` -/

theorem deepEqualImage_iff (a b : Image) : deepEqualImage a b = true ↔ a = b := by
  cases a; cases b; simp [deepEqualImage, and_assoc]

theorem deepEqualElems_iff (a b : List Image) : deepEqualElems a b = true ↔ a = b := by
  induction a generalizing b with
  | nil => cases b <;> simp [deepEqualElems]
  | cons x xs ih => cases b <;> simp [deepEqualElems, deepEqualImage_iff, ih]

theorem deepEqual_iff (a b : GoSlice Image) : deepEqual a b = true ↔ a = b := by
  cases a <;> cases b <;> simp [deepEqual, deepEqualElems_iff]

theorem checkEqual_eq_none_iff (a b : GoSlice Image) : checkEqual a b = none ↔ a = b := by
  unfold checkEqual
  by_cases h : deepEqual a b = true
  · have hab : a = b := (deepEqual_iff a b).1 h
    simpa [h] using hab
  · have hne : ¬ a = b := fun hab => h ((deepEqual_iff a b).2 hab)
    simp [Bool.eq_false_iff.2 h, hne]

theorem image_eq_of_fields {x y : Image}
    (h : x.name = y.name ∧ x.digest = y.digest ∧ x.tag = y.tag) : x = y := by
  cases x; cases y
  simp only [Image.mk.injEq]
  exact h

theorem list_eq_iff_pointwise (la lb : List Image) :
    la = lb ↔ (la.length = lb.length ∧ ∀ (i : Nat) (x y : Image),
      la[i]? = some x → lb[i]? = some y →
        x.name = y.name ∧ x.digest = y.digest ∧ x.tag = y.tag) := by
  constructor
  · rintro rfl
    refine ⟨rfl, ?_⟩
    intro i x y hx hy
    rw [hx] at hy
    cases hy
    exact ⟨rfl, rfl, rfl⟩
  · rintro ⟨hlen, hpt⟩
    apply List.ext_getElem hlen
    intro i h1 h2
    exact image_eq_of_fields
      (hpt i _ _ (List.getElem?_eq_getElem h1) (List.getElem?_eq_getElem h2))

/-- C1 (as amended): `checkEqual(a, b)` returns the nil error exactly when `a`
and `b` are both nil or both non-nil, have the same length, and hold records
equal field by field at every position.  In particular a reordering that
differs from the original, a list with one record duplicated and a list with
one record removed are all reported as mismatches. -/
theorem checkEqual_success_iff (a b : GoSlice Image) :
    (checkEqual a b = none ↔
      (a.isNil = b.isNil ∧ a.len = b.len ∧
        ∀ (i : Nat) (x y : Image), a.toList[i]? = some x → b.toList[i]? = some y →
          x.name = y.name ∧ x.digest = y.digest ∧ x.tag = y.tag)) ∧
    (∀ la lb : List Image, lb.Perm la → la ≠ lb →
      checkEqual (GoSlice.mk la) (GoSlice.mk lb) ≠ none) ∧
    (∀ (front : List Image) (x : Image) (back : List Image),
      checkEqual (GoSlice.mk (front ++ x :: back)) (GoSlice.mk (front ++ x :: x :: back))
        ≠ none) ∧
    (∀ (front : List Image) (x : Image) (back : List Image),
      checkEqual (GoSlice.mk (front ++ x :: back)) (GoSlice.mk (front ++ back)) ≠ none) := by
  refine ⟨?_, ?_, ?_, ?_⟩
  · rw [checkEqual_eq_none_iff]
    cases a with
    | nil =>
      cases b with
      | nil => simp [GoSlice.isNil, GoSlice.len, GoSlice.toList]
      | mk lb => simp [GoSlice.isNil]
    | mk la =>
      cases b with
      | nil => simp [GoSlice.isNil]
      | mk lb =>
        simp only [GoSlice.mk.injEq, GoSlice.isNil, GoSlice.len, GoSlice.toList, true_and]
        exact list_eq_iff_pointwise la lb
  · intro la lb _ hne h
    rw [checkEqual_eq_none_iff] at h
    exact hne (GoSlice.mk.inj h)
  · intro front x back h
    rw [checkEqual_eq_none_iff] at h
    have hlen := congrArg List.length (GoSlice.mk.inj h)
    simp at hlen
  · intro front x back h
    rw [checkEqual_eq_none_iff] at h
    have hlen := congrArg List.length (GoSlice.mk.inj h)
    simp at hlen

/-- C1 (the amended statement at a concrete input): two records in swapped
order are a reordering that differs from the original, hence a mismatch. -/
theorem checkEqual_success_iff_witness :
    checkEqual (GoSlice.mk [imgFoo, ⟨"bar", "sha256:bbb", "2.0"⟩])
      (GoSlice.mk [⟨"bar", "sha256:bbb", "2.0"⟩, imgFoo]) ≠ none :=
  (checkEqual_success_iff GoSlice.nil GoSlice.nil).2.1
    [imgFoo, ⟨"bar", "sha256:bbb", "2.0"⟩] [⟨"bar", "sha256:bbb", "2.0"⟩, imgFoo]
    (List.Perm.swap _ _ _) (by decide)

/-- C1 (counterexample to the claim as stated): an empty non-nil list and the
nil list have the same length and agree at every position, yet `checkEqual`
reports a mismatch. -/
theorem checkEqual_empty_vs_nil :
    ¬ (checkEqual (GoSlice.mk []) GoSlice.nil = none ↔
      ((GoSlice.mk [] : GoSlice Image).len = (GoSlice.nil : GoSlice Image).len ∧
        ∀ (i : Nat) (x y : Image), (GoSlice.mk [] : GoSlice Image).toList[i]? = some x →
          (GoSlice.nil : GoSlice Image).toList[i]? = some y →
            x.name = y.name ∧ x.digest = y.digest ∧ x.tag = y.tag)) := by
  intro h
  have hnone : checkEqual (GoSlice.mk []) GoSlice.nil = none :=
    h.2 ⟨rfl, by intro i x y hx; simp [GoSlice.toList] at hx⟩
  rw [checkEqual_eq_none_iff] at hnone
  cases hnone

/-- C10 (as amended): against an observed empty non-nil list, as `getSnapshot`
returns for a registry without images, `checkEqual(declared, observed)`
succeeds exactly when the declared list is itself the empty non-nil list; a
declared list that loaded as nil is reported as a mismatch. -/
theorem checkEqual_declared_vs_empty (declared : GoSlice Image) :
    (checkEqual declared emptyImages = none ↔ declared = GoSlice.mk []) ∧
    checkEqual GoSlice.nil emptyImages ≠ none := by
  constructor
  · rw [checkEqual_eq_none_iff]; rfl
  · intro h
    rw [checkEqual_eq_none_iff] at h
    cases h

/-- C10 (counterexample to the claim as stated): for a snapshot whose lists
were left out of the suite document, the comparison of the declared `Before`
list with an observed empty list fails with the diff message. -/
theorem checkEqual_omitted_vs_empty :
    checkEqual snapOmitted.Before emptyImages =
      some ("<<<<<<< got (type " ++ imagesTypeName ++ ")\n[]\n=======\n[]\n"
        ++ ">>>>>>> expected (type " ++ imagesTypeName ++ ")") ∧
    checkEqual snapOmitted.After emptyImages ≠ none := by
  decide

/-- C4 (the code at the failing input): the test case declares one image
before promotion and the registry is observed empty.  The diff printed by the
pre-promotion check shows the declared list under the `got` marker and the
observed, empty list in the section closed by the `expected` marker. -/
theorem preVerify_diff_sections :
    preVerify envOk "/repo" testMismatch.Manifest testMismatch.Snapshots [] =
      Res.exit 1
        [Event.exec "/repo" "bazel"
            ["run", "--workspace_status_command=/repo/workspace_status.sh", ":cip", "--",
              "-snapshot=r", "-snapshot-service-account=sa"] ⟨"", "", none⟩,
          Event.print ("<<<<<<< got (type " ++ imagesTypeName ++ ")\n"
            ++ "[\x7bfoo sha256:aaa 1.0\x7d]\n=======\n[]\n"
            ++ ">>>>>>> expected (type " ++ imagesTypeName ++ ")\n")] := by
  decide

/-! ## `execCommand` -/

/-- C5 (as amended): when the subprocess fails, `execCommand` writes both
captured streams to the error log and returns two empty strings together with
the error of the run, unchanged; the captured text is not part of what is
returned. -/
theorem execCommand_failure (env : Env) (cwd cmdString : String) (args : List String)
    (tr : List Event) (e : String)
    (hfail : (env.run tr cwd cmdString args).err = some e) :
    execCommand env cwd cmdString args tr =
      Res.ok ("", "", some e)
        (tr ++ [Event.exec cwd cmdString args (env.run tr cwd cmdString args),
          Event.klogError ("for command " ++ cmdString ++ ":\nstdout:\n"
            ++ (env.run tr cwd cmdString args).stdout
            ++ "stderr:\n" ++ (env.run tr cwd cmdString args).stderr ++ "\n")]) := by
  simp [execCommand, runCmd, hfail]

/-- C5 (the amended statement at a concrete input): a command that wrote to
both streams and then failed. -/
theorem execCommand_failure_witness :
    (envCmdFails.run [] "/repo" "docker" ["manifest", "inspect"]).err = some "exit status 1" ∧
    execCommand envCmdFails "/repo" "docker" ["manifest", "inspect"] [] =
      Res.ok ("", "", some "exit status 1")
        ([] ++ [Event.exec "/repo" "docker" ["manifest", "inspect"]
            (envCmdFails.run [] "/repo" "docker" ["manifest", "inspect"]),
          Event.klogError ("for command " ++ "docker" ++ ":\nstdout:\n"
            ++ (envCmdFails.run [] "/repo" "docker" ["manifest", "inspect"]).stdout
            ++ "stderr:\n"
            ++ (envCmdFails.run [] "/repo" "docker" ["manifest", "inspect"]).stderr
            ++ "\n")]) :=
  ⟨rfl, execCommand_failure envCmdFails "/repo" "docker" ["manifest", "inspect"] []
    "exit status 1" rfl⟩

/-- C5 (counterexample to the claim as stated): the command wrote
`partial output` to standard output and `boom` to standard error before
failing; what `execCommand` returns is two empty strings and the error
`exit status 1`, none of which contains either text. -/
theorem execCommand_drops_streams :
    (envCmdFails.run [] "/repo" "docker" ["manifest", "inspect"]).stdout = "partial output" ∧
    (envCmdFails.run [] "/repo" "docker" ["manifest", "inspect"]).stderr = "boom" ∧
    ∃ tr1, execCommand envCmdFails "/repo" "docker" ["manifest", "inspect"] [] =
        Res.ok ("", "", some "exit status 1") tr1 ∧
      stringsContains "".data "partial output".data = false ∧
      stringsContains "".data "boom".data = false ∧
      stringsContains "exit status 1".data "partial output".data = false ∧
      stringsContains "exit status 1".data "boom".data = false := by
  refine ⟨rfl, rfl, _, rfl, ?_, ?_, ?_, ?_⟩ <;> decide

/-! ## `getSnapshot` and `extractSvcAcc` -/

theorem extractSvcAcc_go_eq (registry : String) (l : List RegistryContext) :
    extractSvcAcc.go registry l =
      ((l.find? (fun rc => decide (rc.Name = registry))).map
        RegistryContext.ServiceAccount).getD "" := by
  induction l with
  | nil => simp [extractSvcAcc.go]
  | cons r rest ih =>
    by_cases h : r.Name = registry
    · simp [extractSvcAcc.go, h, List.find?_cons]
    · simp [extractSvcAcc.go, h, List.find?_cons, ih]

theorem string_length_pos_iff (s : String) : s.length > 0 ↔ s ≠ "" := by
  cases s with
  | mk d => cases d <;> simp [String.length, String.ext_iff]

theorem getSnapshot_trace (env : Env) (cwd registry : String) (mfest : Manifest)
    (tr : List Event) :
    ∃ rest, (getSnapshot env cwd registry mfest tr).trace =
      tr ++ Event.exec cwd "bazel" (snapshotInvocation cwd registry mfest)
        (env.run tr cwd "bazel" (snapshotInvocation cwd registry mfest)) :: rest := by
  simp only [getSnapshot, runCmd, bind_apply, call_apply]
  cases (env.run tr cwd "bazel" (snapshotInvocation cwd registry mfest)).err with
  | some err =>
    refine ⟨[Event.print ("stdout "
      ++ (env.run tr cwd "bazel" (snapshotInvocation cwd registry mfest)).stdout ++ "\n"),
      Event.print ("stderr "
      ++ (env.run tr cwd "bazel" (snapshotInvocation cwd registry mfest)).stderr ++ "\n")], ?_⟩
    simp
  | none =>
    refine ⟨[], ?_⟩
    rcases env.yamlUnmarshalImages
      (env.run tr cwd "bazel" (snapshotInvocation cwd registry mfest)).stdout emptyImages
      with ⟨images, _ | err⟩ <;> simp

theorem snapshotInvocation_eq (cwd registry : String) (mfest : Manifest) :
    snapshotInvocation cwd registry mfest =
      ["run", "--workspace_status_command=" ++ cwd ++ "/workspace_status.sh", ":cip", "--",
        "-snapshot=" ++ registry] ++
      (match mfest.Registries.find? (fun rc => decide (rc.Name = registry)) with
        | some rc =>
          if rc.ServiceAccount = "" then []
          else ["-snapshot-service-account=" ++ rc.ServiceAccount]
        | none => []) := by
  unfold snapshotInvocation extractSvcAcc
  rw [extractSvcAcc_go_eq]
  cases mfest.Registries.find? (fun rc => decide (rc.Name = registry)) with
  | none => simp
  | some rc =>
    by_cases h : rc.ServiceAccount = ""
    · simp [h]
    · have hpos : rc.ServiceAccount.length > 0 := (string_length_pos_iff _).2 h
      simp [h, hpos]

/-- C8: `getSnapshot` starts `bazel` with the argument list
`snapshotInvocation`, whose fifth argument is `-snapshot=r`; a sixth argument
`-snapshot-service-account=A` follows exactly when the first registry entry of
the manifest named `r` has the non-empty service account `A`.  When no entry
is named `r`, or that first entry has an empty service account, no argument
is a service-account argument; entries with another name play no part. -/
theorem getSnapshot_arguments (env : Env) (cwd r : String) (mfest : Manifest)
    (tr : List Event) :
    (∃ rest, (getSnapshot env cwd r mfest tr).trace =
      tr ++ Event.exec cwd "bazel" (snapshotInvocation cwd r mfest)
        (env.run tr cwd "bazel" (snapshotInvocation cwd r mfest)) :: rest) ∧
    extractSvcAcc r mfest =
      ((mfest.Registries.find? (fun rc => decide (rc.Name = r))).map
        RegistryContext.ServiceAccount).getD "" ∧
    snapshotInvocation cwd r mfest =
      ["run", "--workspace_status_command=" ++ cwd ++ "/workspace_status.sh", ":cip", "--",
        "-snapshot=" ++ r] ++
      (if extractSvcAcc r mfest = "" then []
        else ["-snapshot-service-account=" ++ extractSvcAcc r mfest]) ∧
    (∀ A : String, "-snapshot-service-account=" ++ A ∈ snapshotInvocation cwd r mfest ↔
      (A ≠ "" ∧ ∃ rc, mfest.Registries.find? (fun rc => decide (rc.Name = r)) = some rc ∧
        rc.ServiceAccount = A)) := by
  refine ⟨getSnapshot_trace env cwd r mfest tr, extractSvcAcc_go_eq r mfest.Registries, ?_, ?_⟩
  · rw [snapshotInvocation_eq]
    have hx : extractSvcAcc r mfest = _ := extractSvcAcc_go_eq r mfest.Registries
    rw [hx]
    cases mfest.Registries.find? (fun rc => decide (rc.Name = r)) with
    | none => simp
    | some rc => simp
  · intro A
    rw [snapshotInvocation_eq]
    cases mfest.Registries.find? (fun rc => decide (rc.Name = r)) with
    | none => simp [String.ext_iff]
    | some rc =>
      by_cases h : rc.ServiceAccount = ""
      · simp only [h, if_true, List.append_nil]
        constructor
        · intro hmem
          simp [String.ext_iff] at hmem
        · rintro ⟨hA, rc2, hrc, hsa⟩
          cases hrc
          exact absurd (hsa.symm.trans h) hA
      · simp only [h, if_false]
        constructor
        · intro hmem
          have hA : A = rc.ServiceAccount := by
            simpa [String.ext_iff] using hmem
          exact ⟨hA ▸ h, rc, rfl, hA.symm⟩
        · rintro ⟨_, rc2, hrc, hsa⟩
          cases hrc
          simp [hsa]

/-! ## The loop over the suite stops at the first failure -/

theorem mainLoop_append (env : Env) (cwd : String) (done rest : List E2ETest)
    (tr : List Event) :
    mainLoop env cwd (done ++ rest) tr =
      match mainLoop env cwd done tr with
      | Res.ok _ tr1 => mainLoop env cwd rest tr1
      | Res.exit c tr1 => Res.exit c tr1 := by
  induction done generalizing tr with
  | nil => simp [mainLoop]
  | cons t ts ih =>
    simp only [List.cons_append, mainLoop, bind_apply]
    cases runTestCase env cwd t tr with
    | ok _ tr1 => exact ih tr1
    | exit c tr1 => rfl

theorem mainLoop_cons_exit (env : Env) (cwd : String) (t : E2ETest) (rest : List E2ETest)
    (tr : List Event) (code : Nat) (tr2 : List Event)
    (hfail : runTestCase env cwd t tr = Res.exit code tr2) :
    mainLoop env cwd (t :: rest) tr = Res.exit code tr2 := by
  simp [mainLoop, hfail]

/-! ## What each piece of the harness adds to the history -/

theorem emits_pure {α : Type} (P Q : Event → Prop) (a : α) : Emits P Q (pure a : M α) := by
  intro tr
  exact ⟨[], by simp, by simp, by simp⟩

theorem emits_bind {α β : Type} {P Q : Event → Prop} {m : M α} {f : α → M β}
    (hm : Emits P Q m) (hf : ∀ a, Emits P Q (f a)) : Emits P Q (m >>= f) := by
  intro tr
  obtain ⟨n1, h1, hp1, hq1⟩ := hm tr
  rw [bind_apply]
  cases hmt : m tr with
  | ok a tr1 =>
    rw [hmt] at h1 hq1
    simp only [trace_ok] at h1
    obtain ⟨n2, h2, hp2, hq2⟩ := hf a tr1
    refine ⟨n1 ++ n2, ?_, ?_, ?_⟩
    · rw [h2, h1, List.append_assoc]
    · intro e he
      rcases List.mem_append.1 he with h | h
      · exact hp1 e h
      · exact hp2 e h
    · intro hok e he
      rcases List.mem_append.1 he with h | h
      · exact hq1 rfl e h
      · exact hq2 hok e h
  | exit c tr1 =>
    rw [hmt] at h1
    exact ⟨n1, h1, hp1, by simp⟩

theorem emits_emit {P Q : Event → Prop} {e : Event} (hp : P e) (hq : Q e) :
    Emits P Q (emit e) := by
  intro tr
  exact ⟨[e], by simp, by simpa using hp, by simpa using hq⟩

theorem emits_call {β : Type} {P Q : Event → Prop} (ask : List Event → β)
    (record : β → Event) (hp : ∀ b, P (record b)) (hq : ∀ b, Q (record b)) :
    Emits P Q (call ask record) := by
  intro tr
  exact ⟨[record (ask tr)], by simp, by simpa using hp _, by simpa using hq _⟩

theorem emits_klogFatal {α : Type} {P Q : Event → Prop} {msg : String}
    (hp : P (Event.klogFatal msg)) : Emits P Q (klogFatal msg : M α) := by
  intro tr
  exact ⟨[Event.klogFatal msg], by simp, by simpa using hp, by simp⟩

theorem emits_osExit {α : Type} (P Q : Event → Prop) (code : Nat) :
    Emits P Q (osExit code : M α) := by
  intro tr
  exact ⟨[], by simp, by simp, by simp⟩

theorem emits_weaken {α : Type} {P Q P2 Q2 : Event → Prop} {m : M α}
    (h : Emits P Q m) (hp : ∀ e, P e → P2 e) (hq : ∀ e, Q e → Q2 e) : Emits P2 Q2 m := by
  intro tr
  obtain ⟨n, h1, h2, h3⟩ := h tr
  exact ⟨n, h1, fun e he => hp e (h2 e he), fun hok e he => hq e (h3 hok e he)⟩

theorem any_intro (e : Event) : Any e := trivial

theorem quiet_print (s : String) : Quiet (Event.print s) := ⟨rfl, rfl, rfl⟩

theorem quiet_klogError (s : String) : Quiet (Event.klogError s) := ⟨rfl, rfl, rfl⟩

theorem quiet_klogFatal (s : String) : Quiet (Event.klogFatal s) := ⟨rfl, rfl, rfl⟩

theorem probe_of_quiet {e : Event} (h : Quiet e) : Probe e := ⟨h.1, h.2.2⟩

theorem execCommand_emits (env : Env) (cwd cmdString : String) (args : List String)
    (h : ∀ res, Quiet (Event.exec cwd cmdString args res)) :
    Emits Quiet Any (execCommand env cwd cmdString args) := by
  unfold execCommand runCmd
  refine emits_bind (emits_call _ _ h (fun _ => trivial)) ?_
  intro res
  cases res.err with
  | some err =>
    exact emits_bind (emits_emit (quiet_klogError _) trivial) (fun _ => emits_pure _ _ _)
  | none => exact emits_pure _ _ _

theorem getBazelOption_emits (env : Env) (o : String) :
    Emits Quiet Any (getBazelOption env o) := by
  unfold getBazelOption
  refine emits_bind (execCommand_emits env _ _ _ ?_) ?_
  · intro res
    simp [Quiet, isPromotionCmd, isSnapshotCmd, isClearing]
  · rintro ⟨stdout, stderr, err⟩
    cases err <;> exact emits_pure _ _ _

theorem execCmds_emits (env : Env) (cwd : String) (cmds : List (List String))
    (h : ∀ cmd ∈ cmds, ∀ res, Quiet (Event.exec cwd (cmd.headD "") cmd.tail res)) :
    Emits Quiet Any (execCmds env cwd cmds) := by
  induction cmds with
  | nil => exact emits_pure _ _ _
  | cons cmd rest ih =>
    unfold execCmds
    refine emits_bind (emits_emit (quiet_print _) trivial) (fun _ => ?_)
    refine emits_bind (execCommand_emits env _ _ _ (h cmd (List.mem_cons_self _ _))) ?_
    rintro ⟨stdout, stderr, err⟩
    cases err with
    | some e => exact emits_pure _ _ _
    | none =>
      refine emits_bind (emits_emit (quiet_print _) trivial) (fun _ => ?_)
      refine emits_bind (emits_emit (quiet_print _) trivial) (fun _ => ?_)
      exact ih (fun c hc => h c (List.mem_cons_of_mem _ hc))

theorem goldenCmds_quiet (pwd pushRepo cwd : String) :
    ∀ cmd ∈ goldenCmds pwd pushRepo, ∀ res,
      Quiet (Event.exec cwd (cmd.headD "") cmd.tail res) := by
  intro cmd hcmd res
  simp only [goldenCmds, List.mem_cons, List.mem_singleton, List.not_mem_nil, or_false] at hcmd
  rcases hcmd with h | h | h | h | h | h <;> subst h <;>
    simp [Quiet, isPromotionCmd, isSnapshotCmd, isClearing, String.ext_iff, List.isPrefixOf]

theorem publishGolden_emits (env : Env) (cwd : String) :
    Emits Quiet Any (publishGolden env cwd) := by
  unfold publishGolden
  refine emits_bind (getBazelOption_emits env _) (fun pushRepo => ?_)
  by_cases h : pushRepo = ""
  · simp only [h, if_true]
    exact emits_pure _ _ _
  · simp only [h, if_false]
    exact execCmds_emits env cwd _ (goldenCmds_quiet _ _ _)

theorem deleteAll_emits (env : Env) (regName : String) (l : List InvEntry) :
    Emits (fun e => isExec e = false) (fun e => isFailedDelete e = false)
      (deleteAll env regName l) := by
  induction l with
  | nil => exact emits_pure _ _ _
  | cons x rest ih =>
    intro tr
    simp only [deleteAll, bind_apply, call_apply]
    cases h : env.deleteImage tr regName x.image x.digest with
    | some msg =>
      refine ⟨[Event.delete regName x.image x.digest (some msg), Event.klogFatal msg],
        ?_, ?_, ?_⟩ <;> simp [isExec]
    | none =>
      obtain ⟨n, h1, h2, h3⟩ := ih (tr ++ [Event.delete regName x.image x.digest none])
      refine ⟨Event.delete regName x.image x.digest none :: n, ?_, ?_, ?_⟩
      · simpa using h1
      · intro e he
        rcases List.mem_cons.1 he with rfl | h'
        · rfl
        · exact h2 e h'
      · intro hok e he
        rcases List.mem_cons.1 he with rfl | h'
        · rfl
        · exact h3 hok e h'

theorem clearRepository_emits (env : Env) (regName : String) (inv : List InvEntry) :
    Emits (fun e => isExec e = false) (fun e => isFailedDelete e = false)
      (clearRepository env regName inv) := by
  unfold clearRepository ClearRepository
  exact emits_bind (emits_emit rfl rfl) (fun _ => deleteAll_emits env regName _)

theorem clearRegistries_emits (env : Env) (inv : List InvEntry) (l : List RegistryContext) :
    Emits (fun e => isExec e = false) (fun e => isFailedDelete e = false)
      (clearRegistries env inv l) := by
  induction l with
  | nil => exact emits_pure _ _ _
  | cons rc rest ih =>
    unfold clearRegistries
    refine emits_bind (emits_emit rfl rfl) (fun _ => ?_)
    exact emits_bind (clearRepository_emits env rc.Name inv) (fun _ => ih)

theorem resetRegistries_emits (env : Env) (mfest : Manifest) :
    Emits (fun e => isExec e = false) (fun e => isFailedDelete e = false)
      (resetRegistries env mfest) := by
  unfold resetRegistries
  refine emits_bind (emits_call _ _ (fun _ => rfl) (fun _ => rfl)) (fun scErr => ?_)
  cases scErr with
  | some err => exact emits_klogFatal rfl
  | none =>
    refine emits_bind (emits_call _ _ (fun _ => rfl) (fun _ => rfl)) (fun tokErr => ?_)
    cases tokErr with
    | some err => exact emits_klogFatal rfl
    | none =>
      refine emits_bind (emits_call _ _ (fun _ => rfl) (fun _ => rfl)) (fun inv => ?_)
      exact clearRegistries_emits env inv mfest.Registries

theorem snapshot_exec_probe (cwd registry : String) (mfest : Manifest) (res : CmdResult) :
    Probe (Event.exec cwd "bazel" (snapshotInvocation cwd registry mfest) res) := by
  refine ⟨?_, rfl⟩
  rw [snapshotInvocation_eq]
  cases mfest.Registries.find? (fun rc => decide (rc.Name = registry)) with
  | none => simp [isPromotionCmd, String.ext_iff]
  | some rc =>
    by_cases h : rc.ServiceAccount = "" <;> simp [isPromotionCmd, String.ext_iff, h]

theorem snapshot_exec_isSnapshot (cwd registry : String) (mfest : Manifest)
    (res : CmdResult) :
    isSnapshotCmd (Event.exec cwd "bazel" (snapshotInvocation cwd registry mfest) res)
      = true := by
  rw [snapshotInvocation_eq]
  simp [isSnapshotCmd, List.isPrefixOf]

theorem getSnapshot_emits (env : Env) (cwd registry : String) (mfest : Manifest) :
    Emits Probe Any (getSnapshot env cwd registry mfest) := by
  unfold getSnapshot runCmd
  refine emits_bind (emits_call _ _ (snapshot_exec_probe cwd registry mfest)
    (fun _ => trivial)) (fun res => ?_)
  cases res.err with
  | some err =>
    refine emits_bind (emits_emit (probe_of_quiet (quiet_print _)) trivial) (fun _ => ?_)
    refine emits_bind (emits_emit (probe_of_quiet (quiet_print _)) trivial) (fun _ => ?_)
    exact emits_pure _ _ _
  | none =>
    rcases env.yamlUnmarshalImages res.stdout emptyImages with ⟨images, _ | err⟩ <;>
      exact emits_pure _ _ _

theorem preVerify_emits (env : Env) (cwd : String) (mfest : Manifest)
    (l : List RegistrySnapshot) : Emits Probe Any (preVerify env cwd mfest l) := by
  induction l with
  | nil => exact emits_pure _ _ _
  | cons sn rest ih =>
    unfold preVerify
    refine emits_bind (getSnapshot_emits env cwd sn.Name mfest) ?_
    rintro ⟨images, err⟩
    cases err with
    | some e => exact emits_klogFatal (probe_of_quiet (quiet_klogFatal _))
    | none =>
      dsimp only
      cases checkEqual sn.Before images with
      | some msg =>
        exact emits_bind (emits_emit (probe_of_quiet (quiet_print _)) (any_intro _))
          (fun _ => emits_osExit _ _ _)
      | none => exact ih

theorem postVerify_emits (env : Env) (cwd : String) (mfest : Manifest)
    (l : List RegistrySnapshot) : Emits Probe Any (postVerify env cwd mfest l) := by
  induction l with
  | nil => exact emits_pure _ _ _
  | cons sn rest ih =>
    unfold postVerify
    refine emits_bind (getSnapshot_emits env cwd sn.Name mfest) ?_
    rintro ⟨images, err⟩
    cases err with
    | some e => exact emits_klogFatal (probe_of_quiet (quiet_klogFatal _))
    | none =>
      dsimp only
      cases checkEqual sn.After images with
      | some msg =>
        exact emits_bind (emits_emit (probe_of_quiet (quiet_print _)) (any_intro _))
          (fun _ => emits_osExit _ _ _)
      | none => exact ih

theorem writeTempManifest_emits (env : Env) (mfest : Manifest) :
    Emits Quiet Any (writeTempManifest env mfest) := by
  unfold writeTempManifest
  rcases env.yamlMarshal mfest with ⟨bs, _ | err⟩
  · refine emits_bind (emits_call _ _ (fun _ => ⟨rfl, rfl, rfl⟩) (fun _ => trivial)) ?_
    rintro ⟨path, err⟩
    cases err with
    | some e => exact emits_klogFatal (quiet_klogFatal _)
    | none =>
      refine emits_bind (emits_call _ _ (fun _ => ⟨rfl, rfl, rfl⟩) (fun _ => trivial)) ?_
      intro werr
      cases werr with
      | some e => exact emits_klogFatal (quiet_klogFatal _)
      | none =>
        refine emits_bind (emits_call _ _ (fun _ => ⟨rfl, rfl, rfl⟩) (fun _ => trivial)) ?_
        intro cerr
        cases cerr with
        | some e => exact emits_klogFatal (quiet_klogFatal _)
        | none => exact emits_pure _ _ _
  · exact emits_pure _ _ _

theorem runPromotion_shape (env : Env) (cwd manifestPath : String) (tr : List Event) :
    ∃ perr tail, runPromotion env cwd manifestPath tr =
        Res.ok perr (tr ++ Event.exec cwd "bazel" (promotionArgs cwd manifestPath)
          (env.run tr cwd "bazel" (promotionArgs cwd manifestPath)) :: tail) ∧
      ∀ e ∈ tail, Quiet e := by
  simp only [runPromotion, runCmd, bind_apply, call_apply]
  cases (env.run tr cwd "bazel" (promotionArgs cwd manifestPath)).err with
  | some err =>
    refine ⟨some err, [Event.print ("stdout "
      ++ (env.run tr cwd "bazel" (promotionArgs cwd manifestPath)).stdout ++ "\n"),
      Event.print ("stderr "
      ++ (env.run tr cwd "bazel" (promotionArgs cwd manifestPath)).stderr ++ "\n"),
      Event.remove manifestPath], by simp, ?_⟩
    intro e he
    simp only [List.mem_cons, List.mem_singleton, List.not_mem_nil, or_false] at he
    rcases he with rfl | rfl | rfl <;> exact ⟨rfl, rfl, rfl⟩
  | none =>
    refine ⟨none, [Event.print
      ((env.run tr cwd "bazel" (promotionArgs cwd manifestPath)).stdout ++ "\n"),
      Event.remove manifestPath], by simp, ?_⟩
    intro e he
    simp only [List.mem_cons, List.mem_singleton, List.not_mem_nil, or_false] at he
    rcases he with rfl | rfl <;> exact ⟨rfl, rfl, rfl⟩

theorem promotion_exec_isPromotion (cwd manifestPath : String) (res : CmdResult) :
    isPromotionCmd (Event.exec cwd "bazel" (promotionArgs cwd manifestPath) res) = true := by
  simp [isPromotionCmd, promotionArgs]

theorem two_phase {α β : Type} {P1 Q1 P2 Q2 : Event → Prop} {m : M α} {f : α → M β}
    (hm : Emits P1 Q1 m) (hf : ∀ a, Emits P2 Q2 (f a)) (tr : List Event) :
    ∃ n1 n2, ((m >>= f) tr).trace = tr ++ (n1 ++ n2) ∧ (m tr).trace = tr ++ n1 ∧
      (∀ e ∈ n1, P1 e) ∧ ((m tr).isOk = true → ∀ e ∈ n1, Q1 e) ∧
      (∀ e ∈ n2, P2 e) ∧
      ((m tr).isOk = false → n2 = [] ∧ ((m >>= f) tr).isOk = false) := by
  obtain ⟨n1, h1, hp1, hq1⟩ := hm tr
  rw [bind_apply]
  cases hmt : m tr with
  | ok a tr1 =>
    rw [hmt] at h1 hq1
    simp only [trace_ok] at h1
    obtain ⟨n2, h2, hp2, _⟩ := hf a tr1
    refine ⟨n1, n2, ?_, h1, hp1, hq1, hp2, by simp⟩
    rw [h2, h1, List.append_assoc]
  | exit c tr1 =>
    rw [hmt] at h1
    exact ⟨n1, [], by simpa using h1, h1, hp1, by simp, by simp, by simp⟩

theorem index_lt_of_split {n1 n2 : List Event} {A B : Event → Prop}
    (h1 : ∀ e ∈ n1, ¬ B e) (h2 : ∀ e ∈ n2, ¬ A e) {i j : Nat} {a b : Event}
    (ha : (n1 ++ n2)[i]? = some a) (hb : (n1 ++ n2)[j]? = some b)
    (hA : A a) (hB : B b) : i < j := by
  have hi : i < n1.length := by
    by_contra hge
    rw [List.getElem?_append_right (Nat.le_of_not_lt hge)] at ha
    exact h2 a (List.getElem?_mem ha) hA
  have hj : n1.length ≤ j := by
    by_contra hlt
    rw [List.getElem?_append_left (Nat.lt_of_not_le hlt)] at hb
    exact h1 b (List.getElem?_mem hb) hB
  exact Nat.lt_of_lt_of_le hi hj

theorem not_golden_of_not_exec {e : Event} (h : isExec e = false) : isGoldenCmd e = false := by
  cases e <;> first | rfl | simp [isExec] at h

theorem not_promotion_of_not_exec {e : Event} (h : isExec e = false) :
    isPromotionCmd e = false := by
  cases e <;> first | rfl | simp [isExec] at h

theorem not_snapshot_of_not_exec {e : Event} (h : isExec e = false) :
    isSnapshotCmd e = false := by
  cases e <;> first | rfl | simp [isExec] at h

theorem not_failedDelete_of_not_clearing {e : Event} (h : isClearing e = false) :
    isFailedDelete e = false := by
  cases e <;> first | rfl | simp [isClearing] at h

/-! ## `testSetup`: clearing comes first, publication second -/

/-- C6 (as amended): in the interactions of one `testSetup` call every
registry-clearing action (the call that clears a registry and each delete
command) comes before every golden-image publication command: the registries
are cleared first and the golden image is published afterwards. -/
theorem testSetup_clears_then_publishes (env : Env) (cwd : String) (mfest : Manifest)
    (tr : List Event) (i j : Nat) (a b : Event)
    (ha : ((testSetup env cwd mfest tr).added tr)[i]? = some a)
    (hb : ((testSetup env cwd mfest tr).added tr)[j]? = some b)
    (hclear : isClearing a = true) (hgolden : isGoldenCmd b = true) : i < j := by
  obtain ⟨n1, n2, htrace, _, hp1, _, hp2, _⟩ :=
    two_phase (resetRegistries_emits env mfest) (fun _ => publishGolden_emits env cwd) tr
  have hadd : (testSetup env cwd mfest tr).added tr = n1 ++ n2 := added_of_trace htrace
  rw [hadd] at ha hb
  refine index_lt_of_split (A := fun e => isClearing e = true)
    (B := fun e => isGoldenCmd e = true) ?_ ?_ ha hb hclear hgolden
  · intro e he
    simp [not_golden_of_not_exec (hp1 e he)]
  · intro e he
    simp [(hp2 e he).2.2]

/-- C6 (the amended statement at a concrete input): in `envOk` the delete
command of registry `r` is the interaction at index 5 of `testSetup` and the
build of the golden images the one at index 8. -/
theorem testSetup_clears_then_publishes_witness :
    isClearing (Event.delete "r" "img" "sha256:0" none) = true ∧
    isGoldenCmd (Event.exec "/repo" "bazel"
      ["build", "--host_force_python=PY2",
        "--workspace_status_command=/w/workspace_status.sh",
        "//test-e2e:golden-images-loadable.tar"] ⟨"", "", none⟩) = true ∧
    5 < 8 :=
  ⟨by decide, by decide,
    testSetup_clears_then_publishes envOk "/repo" mfestR [] 5 8
      (Event.delete "r" "img" "sha256:0" none)
      (Event.exec "/repo" "bazel"
        ["build", "--host_force_python=PY2",
          "--workspace_status_command=/w/workspace_status.sh",
          "//test-e2e:golden-images-loadable.tar"] ⟨"", "", none⟩)
      (by decide) (by decide) (by decide) (by decide)⟩

/-- C6 (counterexample to the claim as stated): in `envOk` the call that
clears registry `r` and its delete command are issued before the first
golden-image command, so a golden-image command does not precede every
registry-clearing action. -/
theorem testSetup_golden_after_clearing :
    ∃ (i j : Nat) (a b : Event),
      ((testSetup envOk "/repo" mfestR []).added [])[i]? = some a ∧
      ((testSetup envOk "/repo" mfestR []).added [])[j]? = some b ∧
      isClearing a = true ∧ isGoldenCmd b = true ∧ i < j :=
  ⟨4, 8, Event.clearRepository "r",
    Event.exec "/repo" "bazel"
      ["build", "--host_force_python=PY2",
        "--workspace_status_command=/w/workspace_status.sh",
        "//test-e2e:golden-images-loadable.tar"] ⟨"", "", none⟩,
    by decide, by decide, by decide, by decide, by decide⟩

/-! ## A failed delete command aborts setup -/

theorem runPromotion_emits (env : Env) (cwd manifestPath : String) :
    Emits (fun e => isClearing e = false) Any (runPromotion env cwd manifestPath) := by
  intro tr
  obtain ⟨perr, tail, h, htail⟩ := runPromotion_shape env cwd manifestPath tr
  refine ⟨_ :: tail, by rw [h]; rfl, ?_, fun _ _ _ => trivial⟩
  intro e he
  rcases List.mem_cons.1 he with rfl | h'
  · rfl
  · exact (htail e h').2.2

theorem promoteAndVerify_emits (env : Env) (cwd : String) (t : E2ETest) :
    Emits (fun e => isClearing e = false) Any (promoteAndVerify env cwd t) := by
  unfold promoteAndVerify
  refine emits_bind (emits_weaken (writeTempManifest_emits env t.Manifest)
    (fun _ h => h.2.2) (fun _ h => h)) ?_
  rintro ⟨manifestPath, err⟩
  cases err with
  | some e => exact emits_klogFatal rfl
  | none =>
    refine emits_bind (runPromotion_emits env cwd manifestPath) (fun perr => ?_)
    cases perr with
    | some e => exact emits_klogFatal rfl
    | none =>
      refine emits_bind (emits_weaken (postVerify_emits env cwd t.Manifest t.Snapshots)
        (fun _ h => h.2) (fun _ h => h)) (fun _ => ?_)
      exact emits_emit rfl trivial

theorem afterReset_emits (env : Env) (cwd : String) (t : E2ETest) :
    Emits (fun e => isClearing e = false) Any
      (publishGolden env cwd >>= fun err =>
        match err with
        | some e => (klogFatal ("error with test setup:" ++ e) : M Unit)
        | none => do
          preVerify env cwd t.Manifest t.Snapshots
          promoteAndVerify env cwd t) := by
  refine emits_bind (emits_weaken (publishGolden_emits env cwd)
    (fun _ h => h.2.2) (fun _ h => h)) (fun err => ?_)
  cases err with
  | some e => exact emits_klogFatal rfl
  | none =>
    refine emits_bind (emits_weaken (preVerify_emits env cwd t.Manifest t.Snapshots)
      (fun _ h => h.2) (fun _ h => h)) (fun _ => ?_)
    exact promoteAndVerify_emits env cwd t

theorem runTestCase_phases (env : Env) (cwd : String) (t : E2ETest) :
    runTestCase env cwd t =
      ((emit (Event.print ("Running e2e test '" ++ t.Name ++ "'...\n")) >>= fun _ =>
          resetRegistries env t.Manifest) >>= fun _ =>
        (publishGolden env cwd >>= fun err =>
          match err with
          | some e => (klogFatal ("error with test setup:" ++ e) : M Unit)
          | none => do
            preVerify env cwd t.Manifest t.Snapshots
            promoteAndVerify env cwd t)) := by
  funext tr
  simp only [runTestCase, testSetup, bind_apply, emit_apply]
  cases resetRegistries env t.Manifest
    (tr ++ [Event.print ("Running e2e test '" ++ t.Name ++ "'...\n")]) with
  | ok _ tr1 => rfl
  | exit c tr1 => rfl

/-- C7: if one of the delete commands issued while a test case is processed
fails, then `testSetup` does not return to the orchestrator (the run is
terminated inside setup), processing of the test case ends in a process exit,
and no snapshot command is issued for that test case. -/
theorem failed_delete_aborts_setup (env : Env) (cwd : String) (t : E2ETest)
    (tr : List Event)
    (hfail : ∃ e ∈ (runTestCase env cwd t tr).added tr, isFailedDelete e = true) :
    (testSetup env cwd t.Manifest
      (tr ++ [Event.print ("Running e2e test '" ++ t.Name ++ "'...\n")])).isOk = false ∧
    (runTestCase env cwd t tr).isOk = false ∧
    ∀ e ∈ (runTestCase env cwd t tr).added tr, isSnapshotCmd e = false := by
  obtain ⟨e, he, hdel⟩ := hfail
  have hA : Emits (fun e => isExec e = false) (fun e => isFailedDelete e = false)
      (emit (Event.print ("Running e2e test '" ++ t.Name ++ "'...\n")) >>= fun _ =>
        resetRegistries env t.Manifest) :=
    emits_bind (emits_emit rfl rfl) (fun _ => resetRegistries_emits env t.Manifest)
  obtain ⟨n1, n2, htrace, _, hp1, hq1, hp2, hstop⟩ :=
    two_phase hA (fun _ => afterReset_emits env cwd t) tr
  rw [← runTestCase_phases] at htrace hstop
  have hadd : (runTestCase env cwd t tr).added tr = n1 ++ n2 := added_of_trace htrace
  rw [hadd] at he ⊢
  have hnotok : ((emit (Event.print ("Running e2e test '" ++ t.Name ++ "'...\n")) >>=
      fun _ => resetRegistries env t.Manifest) tr).isOk = false := by
    by_contra hok
    have hok2 := Bool.eq_true_of_not_eq_false hok
    rcases List.mem_append.1 he with h | h
    · have := hq1 hok2 e h
      simp [hdel] at this
    · have := not_failedDelete_of_not_clearing (hp2 e h)
      simp [hdel] at this
  obtain ⟨hn2, hexit⟩ := hstop hnotok
  refine ⟨?_, hexit, ?_⟩
  · simp only [bind_apply, emit_apply] at hnotok
    simp only [testSetup, bind_apply]
    cases hr : resetRegistries env t.Manifest
      (tr ++ [Event.print ("Running e2e test '" ++ t.Name ++ "'...\n")]) with
    | ok _ tr1 => rw [hr] at hnotok; simp at hnotok
    | exit c tr1 => rfl
  · intro x hx
    rw [hn2, List.append_nil] at hx
    exact not_snapshot_of_not_exec (hp1 x hx)

/-- C7 (the statement at a concrete input): in `envDeleteFails` the delete
command issued for registry `r` fails. -/
theorem failed_delete_aborts_setup_witness :
    (testSetup envDeleteFails "/repo" testPass.Manifest
      ([] ++ [Event.print ("Running e2e test '" ++ testPass.Name ++ "'...\n")])).isOk
        = false ∧
    (runTestCase envDeleteFails "/repo" testPass []).isOk = false ∧
    ∀ e ∈ (runTestCase envDeleteFails "/repo" testPass []).added [], isSnapshotCmd e = false :=
  failed_delete_aborts_setup envDeleteFails "/repo" testPass []
    ⟨Event.delete "r" "img" "sha256:0" (some "delete failed"), by decide, by decide⟩

/-! ## Promotion is gated by setup and the pre-promotion checks -/

theorem testSetup_emits (env : Env) (cwd : String) (mfest : Manifest) :
    Emits (fun e => isPromotionCmd e = false ∧ isSnapshotCmd e = false) Any
      (testSetup env cwd mfest) := by
  unfold testSetup
  refine emits_bind (emits_weaken (resetRegistries_emits env mfest)
    (fun _ h => ⟨not_promotion_of_not_exec h, not_snapshot_of_not_exec h⟩)
    (fun _ _ => trivial)) (fun _ => ?_)
  exact emits_weaken (publishGolden_emits env cwd) (fun _ h => ⟨h.1, h.2.1⟩) (fun _ h => h)

theorem getSnapshot_ok_trace (env : Env) (cwd registry : String) (mfest : Manifest)
    (tr tr1 : List Event) (images : GoSlice Image)
    (h : getSnapshot env cwd registry mfest tr = Res.ok (images, none) tr1) :
    tr1 = tr ++ [Event.exec cwd "bazel" (snapshotInvocation cwd registry mfest)
      (env.run tr cwd "bazel" (snapshotInvocation cwd registry mfest))] := by
  simp only [getSnapshot, runCmd, bind_apply, call_apply] at h
  cases herr : (env.run tr cwd "bazel" (snapshotInvocation cwd registry mfest)).err with
  | some err =>
    rw [herr] at h
    simp at h
  | none =>
    rw [herr] at h
    dsimp only at h
    rcases hy : env.yamlUnmarshalImages
      (env.run tr cwd "bazel" (snapshotInvocation cwd registry mfest)).stdout emptyImages
      with ⟨imgs, _ | err⟩
    · rw [hy] at h
      simp only [pure_apply, Res.ok.injEq] at h
      exact h.2.symm
    · rw [hy] at h
      simp at h

theorem preVerify_ok_iff (env : Env) (cwd : String) (mfest : Manifest)
    (l : List RegistrySnapshot) (tr tr2 : List Event) :
    preVerify env cwd mfest l tr = Res.ok () tr2 ↔ PreChecked env cwd mfest l tr tr2 := by
  induction l generalizing tr with
  | nil =>
    constructor
    · intro h
      simp only [preVerify, pure_apply, Res.ok.injEq, true_and] at h
      subst h
      exact PreChecked.nil tr
    · intro h
      cases h
      rfl
  | cons sn rest ih =>
    constructor
    · intro h
      simp only [preVerify, bind_apply] at h
      cases hg : getSnapshot env cwd sn.Name mfest tr with
      | exit c tr1 => rw [hg] at h; simp at h
      | ok val tr1 =>
        rcases val with ⟨images, _ | err⟩
        · rw [hg] at h
          dsimp only at h
          cases hc : checkEqual sn.Before images with
          | some msg => rw [hc] at h; simp at h
          | none =>
            rw [hc] at h
            dsimp only at h
            exact PreChecked.cons sn rest images tr tr1 tr2 hg
              ((deepEqual_iff _ _).2 ((checkEqual_eq_none_iff _ _).1 hc)) ((ih tr1).1 h)
        · rw [hg] at h
          simp at h
    · intro h
      cases h with
      | cons _ _ images _ tr1 _ hcap heq hrest =>
        simp only [preVerify, bind_apply, hcap]
        have hc : checkEqual sn.Before images = none :=
          (checkEqual_eq_none_iff _ _).2 ((deepEqual_iff _ _).1 heq)
        simp only [hc]
        exact (ih tr1).2 hrest

theorem preChecked_added (env : Env) (cwd : String) (mfest : Manifest)
    (l : List RegistrySnapshot) (tr tr2 : List Event)
    (h : PreChecked env cwd mfest l tr tr2) :
    ∃ new, tr2 = tr ++ new ∧ (∀ e ∈ new, isPromotionCmd e = false) ∧
      new.countP isSnapshotCmd = l.length := by
  induction h with
  | nil tr => exact ⟨[], by simp, by simp, by simp⟩
  | cons sn rest images tr tr1 tr2 hcap _ _ ih =>
    obtain ⟨new, h1, h2, h3⟩ := ih
    have ht := getSnapshot_ok_trace env cwd sn.Name mfest tr tr1 images hcap
    refine ⟨Event.exec cwd "bazel" (snapshotInvocation cwd sn.Name mfest)
      (env.run tr cwd "bazel" (snapshotInvocation cwd sn.Name mfest)) :: new, ?_, ?_, ?_⟩
    · rw [h1, ht]; simp
    · intro e he
      rcases List.mem_cons.1 he with rfl | h'
      · exact (snapshot_exec_probe cwd sn.Name mfest _).1
      · exact h2 e h'
    · simp [List.countP_cons, snapshot_exec_isSnapshot, h3]

theorem promoteAndVerify_trace (env : Env) (cwd : String) (t : E2ETest)
    (trP trW : List Event) (path : String)
    (hw : writeTempManifest env t.Manifest trP = Res.ok (path, none) trW) :
    ∃ after, (promoteAndVerify env cwd t trP).trace =
        trW ++ Event.exec cwd "bazel" (promotionArgs cwd path)
          (env.run trW cwd "bazel" (promotionArgs cwd path)) :: after ∧
      ∀ e ∈ after, isPromotionCmd e = false := by
  obtain ⟨perr, tail, hrun, htail⟩ := runPromotion_shape env cwd path trW
  simp only [promoteAndVerify, bind_apply, hw, hrun]
  cases perr with
  | some e =>
    refine ⟨tail ++ [Event.klogFatal ("error with promotion:" ++ e)], by simp, ?_⟩
    intro x hx
    rcases List.mem_append.1 hx with h | h
    · exact (htail x h).1
    · simp only [List.mem_singleton] at h
      subst h
      rfl
  | none =>
    dsimp only
    obtain ⟨n1, n2, htrace, _, hp1, _, hp2, _⟩ :=
      two_phase (postVerify_emits env cwd t.Manifest t.Snapshots)
        (fun _ => emits_emit (P := Probe) (Q := Any)
          (e := Event.print ("e2e test '" ++ t.Name ++ "': OK\n")) ⟨rfl, rfl⟩ trivial)
        (trW ++ Event.exec cwd "bazel" (promotionArgs cwd path)
          (env.run trW cwd "bazel" (promotionArgs cwd path)) :: tail)
    refine ⟨tail ++ (n1 ++ n2), ?_, ?_⟩
    · simp only [bind_apply] at htrace ⊢
      rw [htrace]
      simp
    · intro x hx
      rcases List.mem_append.1 hx with h | h
      · exact (htail x h).1
      · rcases List.mem_append.1 h with h' | h'
        · exact (hp1 x h').1
        · exact (hp2 x h').1

theorem countP_zero_of_forall {p : Event → Bool} {l : List Event}
    (h : ∀ e ∈ l, p e = false) : l.countP p = 0 := by
  rw [List.countP_eq_zero]
  intro e he
  simp [h e he]

/-- C3 (as amended): within the processing of one test case, the promotion
tool is started in mutating mode only if `testSetup` returned no error and
every declared snapshot, in declaration order, was captured and found equal to
its declared `Before` list; otherwise it is not started at all.  When setup
and all pre-promotion checks pass and the temporary manifest file is written,
it is started exactly once, right after the manifest is written: by then
exactly one snapshot per declared registry has been captured (the
pre-promotion ones), so every post-promotion capture comes later. -/
theorem promotion_gated_by_prechecks (env : Env) (cwd : String) (t : E2ETest)
    (tr : List Event) :
    (∀ e ∈ (runTestCase env cwd t tr).added tr, isPromotionCmd e = true →
      ∃ trS trP,
        testSetup env cwd t.Manifest
          (tr ++ [Event.print ("Running e2e test '" ++ t.Name ++ "'...\n")])
            = Res.ok none trS ∧
        PreChecked env cwd t.Manifest t.Snapshots trS trP) ∧
    (∀ (trS trP : List Event) (path : String) (trW : List Event),
      testSetup env cwd t.Manifest
        (tr ++ [Event.print ("Running e2e test '" ++ t.Name ++ "'...\n")])
          = Res.ok none trS →
      PreChecked env cwd t.Manifest t.Snapshots trS trP →
      writeTempManifest env t.Manifest trP = Res.ok (path, none) trW →
      ∃ before after,
        trW = tr ++ before ∧
        (runTestCase env cwd t tr).added tr =
          before ++ Event.exec cwd "bazel" (promotionArgs cwd path)
            (env.run trW cwd "bazel" (promotionArgs cwd path)) :: after ∧
        (∀ e ∈ before, isPromotionCmd e = false) ∧
        (∀ e ∈ after, isPromotionCmd e = false) ∧
        ((runTestCase env cwd t tr).added tr).countP isPromotionCmd = 1 ∧
        before.countP isSnapshotCmd = t.Snapshots.length) := by
  obtain ⟨nS, hS, hpS, _⟩ := testSetup_emits env cwd t.Manifest
    (tr ++ [Event.print ("Running e2e test '" ++ t.Name ++ "'...\n")])
  constructor
  · intro e he hpromo
    simp only [Res.added, runTestCase, bind_apply, emit_apply] at he
    cases hts : testSetup env cwd t.Manifest
      (tr ++ [Event.print ("Running e2e test '" ++ t.Name ++ "'...\n")]) with
    | exit c trS =>
      rw [hts] at he hS
      simp only [trace_exit] at he hS
      rw [hS, List.append_assoc, List.drop_left] at he
      rcases List.mem_append.1 he with h | h
      · simp only [List.mem_singleton] at h
        subst h
        simp [isPromotionCmd] at hpromo
      · simp [(hpS e h).1] at hpromo
    | ok err trS =>
      rw [hts] at he hS
      simp only [trace_ok] at hS
      cases err with
      | some msg =>
        simp only [klogFatal_apply, trace_exit] at he
        rw [hS, List.append_assoc, List.append_assoc, List.drop_left] at he
        rcases List.mem_append.1 he with h | h
        · simp only [List.mem_singleton] at h
          subst h
          simp [isPromotionCmd] at hpromo
        · rcases List.mem_append.1 h with h' | h'
          · simp [(hpS e h').1] at hpromo
          · simp only [List.mem_singleton] at h'
            subst h'
            simp [isPromotionCmd] at hpromo
      | none =>
        dsimp only at he
        rw [bind_apply] at he
        cases hpv : preVerify env cwd t.Manifest t.Snapshots trS with
        | ok _ trP => exact ⟨trS, trP, rfl, (preVerify_ok_iff _ _ _ _ _ _).1 hpv⟩
        | exit c trP =>
          obtain ⟨nP, hP, hpP, _⟩ := preVerify_emits env cwd t.Manifest t.Snapshots trS
          rw [hpv] at he hP
          simp only [trace_exit] at he hP
          rw [hP, hS, List.append_assoc, List.append_assoc, List.drop_left] at he
          rcases List.mem_append.1 he with h | h
          · simp only [List.mem_singleton] at h
            subst h
            simp [isPromotionCmd] at hpromo
          · rcases List.mem_append.1 h with h' | h'
            · simp [(hpS e h').1] at hpromo
            · simp [(hpP e h').1] at hpromo
  · intro trS trP path trW hts hpc hw
    rw [hts] at hS
    simp only [trace_ok] at hS
    obtain ⟨nP, hP, hpP, hcount⟩ := preChecked_added _ _ _ _ _ _ hpc
    obtain ⟨nW, hW, hpW, _⟩ := writeTempManifest_emits env t.Manifest trP
    rw [hw] at hW
    simp only [trace_ok] at hW
    obtain ⟨after, hafter, hpafter⟩ := promoteAndVerify_trace env cwd t trP trW path hw
    have hpv := (preVerify_ok_iff _ _ _ _ _ _).2 hpc
    have hrun : runTestCase env cwd t tr = promoteAndVerify env cwd t trP := by
      simp only [runTestCase, bind_apply, emit_apply, hts, hpv]
    have hbefore : trW = tr ++
        ([Event.print ("Running e2e test '" ++ t.Name ++ "'...\n")] ++ nS ++ nP ++ nW) := by
      rw [hW, hP, hS]
      simp
    have hnopromo : ∀ e ∈ [Event.print ("Running e2e test '" ++ t.Name ++ "'...\n")]
        ++ nS ++ nP ++ nW, isPromotionCmd e = false := by
      intro e he
      simp only [List.mem_append, List.mem_singleton] at he
      rcases he with ((rfl | h) | h) | h
      · rfl
      · exact (hpS e h).1
      · exact hpP e h
      · exact (hpW e h).1
    have hadded : (runTestCase env cwd t tr).added tr =
        ([Event.print ("Running e2e test '" ++ t.Name ++ "'...\n")] ++ nS ++ nP ++ nW)
          ++ Event.exec cwd "bazel" (promotionArgs cwd path)
            (env.run trW cwd "bazel" (promotionArgs cwd path)) :: after := by
      apply added_of_trace
      rw [hrun, hafter, hbefore]
      simp
    refine ⟨_, after, hbefore, hadded, hnopromo, hpafter, ?_, ?_⟩
    · rw [hadded, List.countP_append, List.countP_cons,
        countP_zero_of_forall hnopromo, countP_zero_of_forall hpafter,
        promotion_exec_isPromotion]
      rfl
    · have hs1 : nS.countP isSnapshotCmd = 0 :=
        countP_zero_of_forall (fun e he => (hpS e he).2)
      have hs2 : nW.countP isSnapshotCmd = 0 :=
        countP_zero_of_forall (fun e he => (hpW e he).2.1)
      rw [List.countP_append, List.countP_append, List.countP_append, hs1, hs2, hcount]
      simp [isSnapshotCmd]

/-- C3 (the amended statement at a concrete input): in `envOk` the test case
`testPass` passes setup and its pre-promotion check, the manifest file is
written, and the promotion tool is started exactly once, after the single
pre-promotion snapshot. -/
theorem promotion_gated_by_prechecks_witness :
    ∃ before after,
      (writeTempManifest envOk testPass.Manifest
        (preVerify envOk "/repo" testPass.Manifest testPass.Snapshots
          (testSetup envOk "/repo" testPass.Manifest
            [Event.print "Running e2e test 'pass'...\n"]).trace).trace).trace
        = [] ++ before ∧
      (runTestCase envOk "/repo" testPass []).added [] =
        before ++ Event.exec "/repo" "bazel" (promotionArgs "/repo" "/tmp/f")
          ⟨"", "", none⟩ :: after ∧
      ((runTestCase envOk "/repo" testPass []).added []).countP isPromotionCmd = 1 ∧
      before.countP isSnapshotCmd = 1 := by
  obtain ⟨before, after, h1, h2, _, _, h5, h6⟩ :=
    (promotion_gated_by_prechecks envOk "/repo" testPass []).2
      (testSetup envOk "/repo" testPass.Manifest
        [Event.print "Running e2e test 'pass'...\n"]).trace
      (preVerify envOk "/repo" testPass.Manifest testPass.Snapshots
        (testSetup envOk "/repo" testPass.Manifest
          [Event.print "Running e2e test 'pass'...\n"]).trace).trace
      "/tmp/f"
      (writeTempManifest envOk testPass.Manifest
        (preVerify envOk "/repo" testPass.Manifest testPass.Snapshots
          (testSetup envOk "/repo" testPass.Manifest
            [Event.print "Running e2e test 'pass'...\n"]).trace).trace).trace
      (by decide!)
      (PreChecked.cons ⟨"r", GoSlice.mk [], GoSlice.mk []⟩ [] (GoSlice.mk []) _ _ _
        (by decide!) (by decide!) (PreChecked.nil _))
      (by decide!)
  exact ⟨before, after, h1, h2, h5, h6⟩

/-- C3 (counterexample to the claim as stated): in `envNoTempFile` the test
case `testPass` passes setup and its pre-promotion check, but the temporary
manifest file cannot be created, the run ends there, and the promotion tool is
never started. -/
theorem promotion_skipped_when_manifest_unwritten :
    (∃ trS trP,
      testSetup envNoTempFile "/repo" testPass.Manifest
        ([] ++ [Event.print ("Running e2e test '" ++ testPass.Name ++ "'...\n")])
          = Res.ok none trS ∧
      PreChecked envNoTempFile "/repo" testPass.Manifest testPass.Snapshots trS trP) ∧
    ((runTestCase envNoTempFile "/repo" testPass []).added []).countP isPromotionCmd = 0 ∧
    (runTestCase envNoTempFile "/repo" testPass []).isOk = false := by
  refine ⟨⟨(testSetup envNoTempFile "/repo" testPass.Manifest
      [Event.print "Running e2e test 'pass'...\n"]).trace,
    (preVerify envNoTempFile "/repo" testPass.Manifest testPass.Snapshots
      (testSetup envNoTempFile "/repo" testPass.Manifest
        [Event.print "Running e2e test 'pass'...\n"]).trace).trace, by decide!,
    PreChecked.cons ⟨"r", GoSlice.mk [], GoSlice.mk []⟩ [] (GoSlice.mk []) _ _ _
      (by decide!) (by decide!) (PreChecked.nil _)⟩, by decide!, by decide!⟩

/-! ## Every failure of a test case ends the run -/

theorem checkEqual_of_not_deepEqual {a b : GoSlice Image} (h : deepEqual a b = false) :
    ∃ msg, checkEqual a b = some msg := by
  simp [checkEqual, h]

theorem checkEqual_of_deepEqual {a b : GoSlice Image} (h : deepEqual a b = true) :
    checkEqual a b = none :=
  (checkEqual_eq_none_iff a b).2 ((deepEqual_iff a b).1 h)

theorem preVerify_exit_of_fails (env : Env) (cwd : String) (mfest : Manifest)
    (l : List RegistrySnapshot) (tr : List Event)
    (h : VerifyFails env cwd mfest RegistrySnapshot.Before l tr) :
    ∃ code tr2, preVerify env cwd mfest l tr = Res.exit code tr2 := by
  induction h with
  | captureError s rest images err tr tr1 hcap =>
    simp only [preVerify, bind_apply, hcap, klogFatal_apply]
    exact ⟨_, _, rfl⟩
  | mismatch s rest images tr tr1 hcap hne =>
    obtain ⟨msg, hmsg⟩ := checkEqual_of_not_deepEqual hne
    simp only [preVerify, bind_apply, hcap, hmsg, emit_apply, osExit_apply]
    exact ⟨_, _, rfl⟩
  | later s rest images tr tr1 hcap heq _ ih =>
    obtain ⟨code, tr2, h2⟩ := ih
    simp only [preVerify, bind_apply, hcap, checkEqual_of_deepEqual heq, h2]
    exact ⟨_, _, rfl⟩

theorem postVerify_exit_of_fails (env : Env) (cwd : String) (mfest : Manifest)
    (l : List RegistrySnapshot) (tr : List Event)
    (h : VerifyFails env cwd mfest RegistrySnapshot.After l tr) :
    ∃ code tr2, postVerify env cwd mfest l tr = Res.exit code tr2 := by
  induction h with
  | captureError s rest images err tr tr1 hcap =>
    simp only [postVerify, bind_apply, hcap, klogFatal_apply]
    exact ⟨_, _, rfl⟩
  | mismatch s rest images tr tr1 hcap hne =>
    obtain ⟨msg, hmsg⟩ := checkEqual_of_not_deepEqual hne
    simp only [postVerify, bind_apply, hcap, hmsg, emit_apply, osExit_apply]
    exact ⟨_, _, rfl⟩
  | later s rest images tr tr1 hcap heq _ ih =>
    obtain ⟨code, tr2, h2⟩ := ih
    simp only [postVerify, bind_apply, hcap, checkEqual_of_deepEqual heq, h2]
    exact ⟨_, _, rfl⟩

theorem runTestCase_exit_of_failure (env : Env) (cwd : String) (t : E2ETest)
    (tr : List Event) (hfail : TestFailure env cwd t tr) :
    ∃ code tr2, runTestCase env cwd t tr = Res.exit code tr2 := by
  cases hfail with
  | setupFatal h =>
    cases hts : testSetup env cwd t.Manifest
      (tr ++ [Event.print ("Running e2e test '" ++ t.Name ++ "'...\n")]) with
    | ok v trS => rw [hts] at h; simp at h
    | exit c trS =>
      simp only [runTestCase, bind_apply, emit_apply, hts]
      exact ⟨_, _, rfl⟩
  | setupError e trS h =>
    simp only [runTestCase, bind_apply, emit_apply, h, klogFatal_apply]
    exact ⟨_, _, rfl⟩
  | preCheck trS hs h =>
    obtain ⟨code, tr2, h2⟩ := preVerify_exit_of_fails _ _ _ _ _ h
    simp only [runTestCase, bind_apply, emit_apply, hs, h2]
    exact ⟨_, _, rfl⟩
  | manifestFatal trS trP hs hp h =>
    have hpv := (preVerify_ok_iff _ _ _ _ _ _).2 hp
    cases hw : writeTempManifest env t.Manifest trP with
    | ok v trW => rw [hw] at h; simp at h
    | exit c trW =>
      simp only [runTestCase, promoteAndVerify, bind_apply, emit_apply, hs, hpv, hw]
      exact ⟨_, _, rfl⟩
  | manifestError trS trP path e trW hs hp h =>
    have hpv := (preVerify_ok_iff _ _ _ _ _ _).2 hp
    simp only [runTestCase, promoteAndVerify, bind_apply, emit_apply, hs, hpv, h,
        klogFatal_apply]
    exact ⟨_, _, rfl⟩
  | promotionError trS trP path trW e trR hs hp hw h =>
    have hpv := (preVerify_ok_iff _ _ _ _ _ _).2 hp
    simp only [runTestCase, promoteAndVerify, bind_apply, emit_apply, hs, hpv, hw, h,
        klogFatal_apply]
    exact ⟨_, _, rfl⟩
  | postCheck trS trP path trW trR hs hp hw hr h =>
    have hpv := (preVerify_ok_iff _ _ _ _ _ _).2 hp
    obtain ⟨code, tr2, h2⟩ := postVerify_exit_of_fails _ _ _ _ _ h
    simp only [runTestCase, promoteAndVerify, bind_apply, emit_apply, hs, hpv, hw, hr, h2]
    exact ⟨_, _, rfl⟩

theorem getSnapshot_returns (env : Env) (cwd registry : String) (mfest : Manifest)
    (tr : List Event) : ∃ v tr1, getSnapshot env cwd registry mfest tr = Res.ok v tr1 := by
  simp only [getSnapshot, runCmd, bind_apply, call_apply]
  cases (env.run tr cwd "bazel" (snapshotInvocation cwd registry mfest)).err with
  | some err => exact ⟨_, _, rfl⟩
  | none =>
    rcases env.yamlUnmarshalImages
      (env.run tr cwd "bazel" (snapshotInvocation cwd registry mfest)).stdout emptyImages
      with ⟨images, _ | err⟩ <;> exact ⟨_, _, rfl⟩

theorem verifyFails_of_preVerify_exit (env : Env) (cwd : String) (mfest : Manifest)
    (l : List RegistrySnapshot) (tr : List Event)
    (h : (preVerify env cwd mfest l tr).isOk = false) :
    VerifyFails env cwd mfest RegistrySnapshot.Before l tr := by
  induction l generalizing tr with
  | nil => simp [preVerify] at h
  | cons s rest ih =>
    obtain ⟨⟨images, err⟩, tr1, hcap⟩ := getSnapshot_returns env cwd s.Name mfest tr
    cases err with
    | some e => exact VerifyFails.captureError s rest images e tr tr1 hcap
    | none =>
      cases hd : deepEqual s.Before images with
      | false => exact VerifyFails.mismatch s rest images tr tr1 hcap hd
      | true =>
        refine VerifyFails.later s rest images tr tr1 hcap hd (ih tr1 ?_)
        simpa only [preVerify, bind_apply, hcap, checkEqual_of_deepEqual hd] using h

theorem verifyFails_of_postVerify_exit (env : Env) (cwd : String) (mfest : Manifest)
    (l : List RegistrySnapshot) (tr : List Event)
    (h : (postVerify env cwd mfest l tr).isOk = false) :
    VerifyFails env cwd mfest RegistrySnapshot.After l tr := by
  induction l generalizing tr with
  | nil => simp [postVerify] at h
  | cons s rest ih =>
    obtain ⟨⟨images, err⟩, tr1, hcap⟩ := getSnapshot_returns env cwd s.Name mfest tr
    cases err with
    | some e => exact VerifyFails.captureError s rest images e tr tr1 hcap
    | none =>
      cases hd : deepEqual s.After images with
      | false => exact VerifyFails.mismatch s rest images tr tr1 hcap hd
      | true =>
        refine VerifyFails.later s rest images tr tr1 hcap hd (ih tr1 ?_)
        simpa only [postVerify, bind_apply, hcap, checkEqual_of_deepEqual hd] using h

theorem runTestCase_failure_of_exit (env : Env) (cwd : String) (t : E2ETest)
    (tr : List Event) (h : (runTestCase env cwd t tr).isOk = false) :
    TestFailure env cwd t tr := by
  simp only [runTestCase, bind_apply, emit_apply] at h
  cases hs : testSetup env cwd t.Manifest
    (tr ++ [Event.print ("Running e2e test '" ++ t.Name ++ "'...\n")]) with
  | exit c trS => exact TestFailure.setupFatal (by rw [hs]; rfl)
  | ok err trS =>
    cases err with
    | some e => exact TestFailure.setupError e trS hs
    | none =>
      rw [hs] at h
      dsimp only at h
      rw [bind_apply] at h
      cases hpv : preVerify env cwd t.Manifest t.Snapshots trS with
      | exit c trP =>
        exact TestFailure.preCheck trS hs
          (verifyFails_of_preVerify_exit _ _ _ _ _ (by rw [hpv]; rfl))
      | ok _ trP =>
        have hp := (preVerify_ok_iff _ _ _ _ _ _).1 hpv
        rw [hpv] at h
        simp only [promoteAndVerify, bind_apply] at h
        cases hw : writeTempManifest env t.Manifest trP with
        | exit c trW => exact TestFailure.manifestFatal trS trP hs hp (by rw [hw]; rfl)
        | ok v trW =>
          rcases v with ⟨path, _ | e⟩
          · rw [hw] at h
            dsimp only at h
            obtain ⟨perr, tail, hrun, _⟩ := runPromotion_shape env cwd path trW
            rw [bind_apply, hrun] at h
            cases perr with
            | some e => exact TestFailure.promotionError trS trP path trW e _ hs hp hw hrun
            | none =>
              dsimp only at h
              rw [bind_apply] at h
              refine TestFailure.postCheck trS trP path trW _ hs hp hw hrun
                (verifyFails_of_postVerify_exit _ _ _ _ _ ?_)
              cases hpost : postVerify env cwd t.Manifest t.Snapshots
                  (trW ++ Event.exec cwd "bazel" (promotionArgs cwd path)
                    (env.run trW cwd "bazel" (promotionArgs cwd path)) :: tail) with
              | ok _ trQ => rw [hpost] at h; simp at h
              | exit c trQ => rfl
          · exact TestFailure.manifestError trS trP path e trW hs hp hw

theorem runTestCase_exit_iff_failure (env : Env) (cwd : String) (t : E2ETest)
    (tr : List Event) :
    (runTestCase env cwd t tr).isOk = false ↔ TestFailure env cwd t tr := by
  constructor
  · exact runTestCase_failure_of_exit env cwd t tr
  · intro h
    obtain ⟨code, tr2, h2⟩ := runTestCase_exit_of_failure env cwd t tr h
    rw [h2]
    rfl

/-- C2: if the test cases before position `i` pass and processing of test
case `i` meets a failure (setup ends the run or returns an error, a snapshot
cannot be captured, a pre- or post-promotion snapshot differs from its
declared list, the manifest cannot be written, or the promotion tool fails),
then processing of test case `i` ends in a process exit, and the run of the
whole suite ends right there, with the same exit code and with exactly the
interaction history reached at that failure: nothing is issued for any later
test case, and the run is the same as that of the suite cut after test case
`i`. -/
theorem mainLoop_stops_at_first_failure (env : Env) (cwd : String)
    (earlier : List E2ETest) (t : E2ETest) (later : List E2ETest)
    (tr tr1 : List Event)
    (hearlier : mainLoop env cwd earlier tr = Res.ok () tr1)
    (hfail : TestFailure env cwd t tr1) :
    ∃ code tr2, runTestCase env cwd t tr1 = Res.exit code tr2 ∧
      mainLoop env cwd (earlier ++ t :: later) tr = Res.exit code tr2 ∧
      mainLoop env cwd (earlier ++ t :: later) tr =
        mainLoop env cwd (earlier ++ [t]) tr := by
  obtain ⟨code, tr2, hexit⟩ := runTestCase_exit_of_failure env cwd t tr1 hfail
  have h1 : ∀ l, mainLoop env cwd (earlier ++ t :: l) tr = Res.exit code tr2 := by
    intro l
    rw [mainLoop_append, hearlier]
    exact mainLoop_cons_exit env cwd t l tr1 code tr2 hexit
  exact ⟨code, tr2, hexit, h1 later, (h1 later).trans (h1 []).symm⟩

/-- C2 (the statement at a concrete input): in `envOk` the suite made of
`testPass`, `testMismatch`, `testPass` passes its first test case; the second
one passes setup and then finds its declared `Before` list different from the
captured, empty snapshot; the run stops there and the third test case is never
started. -/
theorem mainLoop_stops_at_first_failure_witness :
    mainLoop envOk "/repo" [testPass] [] =
        Res.ok () (mainLoop envOk "/repo" [testPass] []).trace ∧
    deepEqual (GoSlice.mk [imgFoo]) (GoSlice.mk []) = false ∧
    ∃ code tr2,
      runTestCase envOk "/repo" testMismatch (mainLoop envOk "/repo" [testPass] []).trace
        = Res.exit code tr2 ∧
      mainLoop envOk "/repo" ([testPass] ++ testMismatch :: [testPass]) [] =
        Res.exit code tr2 ∧
      mainLoop envOk "/repo" ([testPass] ++ testMismatch :: [testPass]) [] =
        mainLoop envOk "/repo" ([testPass] ++ [testMismatch]) [] :=
  ⟨by decide!, by decide,
    mainLoop_stops_at_first_failure envOk "/repo" [testPass] testMismatch [testPass] []
      (mainLoop envOk "/repo" [testPass] []).trace (by decide!)
      (TestFailure.preCheck
        (testSetup envOk "/repo" testMismatch.Manifest
          ((mainLoop envOk "/repo" [testPass] []).trace ++
            [Event.print ("Running e2e test '" ++ testMismatch.Name ++ "'...\n")])).trace
        (by decide!)
        (VerifyFails.mismatch ⟨"r", GoSlice.mk [imgFoo], GoSlice.mk []⟩ [] (GoSlice.mk [])
          _ (getSnapshot envOk "/repo" "r" testMismatch.Manifest
            (testSetup envOk "/repo" testMismatch.Manifest
              ((mainLoop envOk "/repo" [testPass] []).trace ++
                [Event.print ("Running e2e test '" ++ testMismatch.Name
                  ++ "'...\n")])).trace).trace
          (by decide!) (by decide)))⟩

/-! ## The line scan of `getBazelOption` -/

theorem stringsSplit_no_sep (sep : Char) (w : List Char) (h : sep ∉ w) :
    stringsSplit sep w = [w] := by
  induction w with
  | nil => rfl
  | cons c cs ih =>
    have hc : ¬ c = sep := fun hc => h (hc ▸ List.mem_cons_self _ _)
    have hcs : sep ∉ cs := fun hm => h (List.mem_cons_of_mem _ hm)
    simp [stringsSplit, hc, ih hcs]

theorem stringsSplit_append_sep (sep : Char) (w rest : List Char) (h : sep ∉ w) :
    stringsSplit sep (w ++ sep :: rest) = w :: stringsSplit sep rest := by
  induction w with
  | nil => simp [stringsSplit]
  | cons c cs ih =>
    have hc : ¬ c = sep := fun hc => h (hc ▸ List.mem_cons_self _ _)
    have hcs : sep ∉ cs := fun hm => h (List.mem_cons_of_mem _ hm)
    simp [stringsSplit, hc, ih hcs]

theorem stringsSplit_joinLines (ls : List (List Char)) (hne : ls ≠ [])
    (h : ∀ l ∈ ls, '\n' ∉ l) : stringsSplit '\n' (joinLines ls) = ls := by
  induction ls with
  | nil => exact absurd rfl hne
  | cons l rest ih =>
    cases rest with
    | nil => exact stringsSplit_no_sep _ _ (h l (List.mem_cons_self _ _))
    | cons m rest2 =>
      have hl : '\n' ∉ l := h l (List.mem_cons_self _ _)
      have hrest : ∀ x ∈ m :: rest2, '\n' ∉ x := fun x hx => h x (List.mem_cons_of_mem _ hx)
      simp only [joinLines]
      rw [stringsSplit_append_sep _ _ _ hl, ih (by simp) hrest]

theorem joinLines_last (ls : List (List Char)) (hne : ls ≠ [])
    (h : ∀ l ∈ ls, l ≠ [] ∧ '\n' ∉ l) :
    ∃ c, (joinLines ls).getLast? = some c ∧ c ≠ '\n' := by
  induction ls with
  | nil => exact absurd rfl hne
  | cons l rest ih =>
    cases rest with
    | nil =>
      obtain ⟨hl, hnl⟩ := h l (List.mem_cons_self _ _)
      cases hlast : l.getLast? with
      | none => exact absurd (List.getLast?_eq_none_iff.1 hlast) hl
      | some c =>
        refine ⟨c, hlast, ?_⟩
        rintro rfl
        obtain ⟨ys, hys⟩ := List.getLast?_eq_some_iff.1 hlast
        exact hnl (hys ▸ by simp)
    | cons m rest2 =>
      have hrest : ∀ x ∈ m :: rest2, x ≠ [] ∧ '\n' ∉ x :=
        fun x hx => h x (List.mem_cons_of_mem _ hx)
      obtain ⟨c, hc, hcn⟩ := ih (by simp) hrest
      refine ⟨c, ?_, hcn⟩
      simp only [joinLines]
      rw [List.getLast?_append, List.getLast?_cons, hc]
      rfl

theorem stringsTrimSuffix_newline (s : List Char) :
    stringsTrimSuffix (s ++ ['\n']) ['\n'] = s := by
  have hsuf : List.isSuffixOf ['\n'] (s ++ ['\n']) = true := by
    rw [List.isSuffixOf_iff_suffix]
    exact List.suffix_append _ _
  simp [stringsTrimSuffix, hsuf]

theorem stringsTrimSuffix_no_newline (s : List Char) (h : s.getLast? ≠ some '\n') :
    stringsTrimSuffix s ['\n'] = s := by
  have hsuf : ¬ List.isSuffixOf ['\n'] s = true := by
    rw [List.isSuffixOf_iff_suffix]
    rintro ⟨t, ht⟩
    exact h (ht ▸ List.getLast?_concat t)
  simp [stringsTrimSuffix, hsuf]

theorem renderLine_ne_nil (kv : List Char × List Char) : renderLine kv ≠ [] := by
  simp [renderLine]

theorem renderLine_no_newline (kv : List Char × List Char)
    (h1 : '\n' ∉ kv.1) (h2 : '\n' ∉ kv.2) : '\n' ∉ renderLine kv := by
  simp [renderLine, h1, h2]

theorem stringsSplit_renderLine (kv : List Char × List Char)
    (h1 : ' ' ∉ kv.1) (h2 : ' ' ∉ kv.2) :
    stringsSplit ' ' (renderLine kv) = [kv.1, kv.2] := by
  unfold renderLine
  rw [stringsSplit_append_sep _ _ _ h1, stringsSplit_no_sep _ _ h2]

theorem stringsContains_of_starts (o rest : List Char) :
    stringsContains (o ++ rest) o = true := by
  cases hl : o ++ rest with
  | nil =>
    have ho : o = [] := (List.append_eq_nil.1 hl).1
    simp [stringsContains, ho]
  | cons c cs =>
    have hpre : List.isPrefixOf o (c :: cs) = true := by
      rw [List.isPrefixOf_iff_prefix, ← hl]
      exact List.prefix_append _ _
    simp [stringsContains, hpre]

theorem scanLines_render (o : List Char) (kvs : List (List Char × List Char))
    (hform : ∀ kv ∈ kvs, ' ' ∉ kv.1 ∧ ' ' ∉ kv.2) :
    scanLines o (kvs.map renderLine) =
      ((kvs.find? (fun kv => stringsContains (renderLine kv) o)).map Prod.snd).getD [] := by
  induction kvs with
  | nil => rfl
  | cons kv rest ih =>
    have hf := hform kv (List.mem_cons_self _ _)
    have ih2 := ih (fun x hx => hform x (List.mem_cons_of_mem _ hx))
    cases hc : stringsContains (renderLine kv) o with
    | true => simp [scanLines, hc, stringsSplit_renderLine kv hf.1 hf.2, List.find?_cons]
    | false => simp [scanLines, hc, List.find?_cons, ih2]

theorem scanOutput_first_containing (o : List Char) (kvs : List (List Char × List Char))
    (finalNewline : Bool)
    (hform : ∀ kv ∈ kvs, ' ' ∉ kv.1 ∧ ' ' ∉ kv.2 ∧ '\n' ∉ kv.1 ∧ '\n' ∉ kv.2) :
    scanOutput (renderOutput kvs finalNewline) o =
      ((kvs.find? (fun kv => stringsContains (renderLine kv) o)).map Prod.snd).getD [] := by
  have htrim : stringsTrimSuffix (renderOutput kvs finalNewline) ['\n'] =
      joinLines (kvs.map renderLine) := by
    cases finalNewline with
    | true => exact stringsTrimSuffix_newline _
    | false =>
      simp only [renderOutput, Bool.false_eq_true, if_false, List.append_nil]
      apply stringsTrimSuffix_no_newline
      cases kvs with
      | nil => simp [joinLines]
      | cons kv rest =>
        obtain ⟨c, hc, hcn⟩ := joinLines_last ((kv :: rest).map renderLine) (by simp)
          (by
            intro l hl
            obtain ⟨x, hx, rfl⟩ := List.mem_map.1 hl
            exact ⟨renderLine_ne_nil x,
              renderLine_no_newline x (hform x hx).2.2.1 (hform x hx).2.2.2⟩)
        rw [hc]
        intro h
        exact hcn (Option.some.inj h)
  unfold scanOutput
  rw [htrim]
  cases kvs with
  | nil =>
    by_cases ho : o = []
    · simp [joinLines, stringsSplit, scanLines, stringsContains, ho]
    · simp [joinLines, stringsSplit, scanLines, stringsContains, ho]
  | cons kv rest =>
    rw [stringsSplit_joinLines _ (by simp)]
    · exact scanLines_render o (kv :: rest) (fun x hx => ⟨(hform x hx).1, (hform x hx).2.1⟩)
    · intro l hl
      obtain ⟨x, hx, rfl⟩ := List.mem_map.1 hl
      exact renderLine_no_newline x (hform x hx).2.2.1 (hform x hx).2.2.2

/-- C9 (the code at the failing input): the script output has the two lines
`STABLE_REPO_MIRROR gcr.io/m` and `STABLE_REPO gcr.io/s`, well formed and with
distinct keys.  The scan for `STABLE_REPO` returns `gcr.io/m`, the value of
the first line, because that line contains the option name, and so does
`getBazelOption`; the scan for `REPO`, which is the key of no line, returns
`gcr.io/m` and not the empty string; and when the value of an earlier line is
the option name, that line decides. -/
theorem scanOutput_substring_match :
    (∀ kv ∈ kvsOverlap, ' ' ∉ kv.1 ∧ ' ' ∉ kv.2 ∧ '\n' ∉ kv.1 ∧ '\n' ∉ kv.2) ∧
    (kvsOverlap.map Prod.fst).Nodup ∧
    ("STABLE_REPO".data, "gcr.io/s".data) ∈ kvsOverlap ∧
    scanOutput (renderOutput kvsOverlap true) "STABLE_REPO".data = "gcr.io/m".data ∧
    scanOutput (renderOutput kvsOverlap true) "STABLE_REPO".data ≠ "gcr.io/s".data ∧
    (∀ kv ∈ kvsOverlap, kv.1 ≠ "REPO".data) ∧
    scanOutput (renderOutput kvsOverlap true) "REPO".data = "gcr.io/m".data ∧
    scanOutput (renderOutput kvsOverlap true) "REPO".data ≠ [] ∧
    (kvsValueHit.map Prod.fst).Nodup ∧
    ("STABLE_REPO".data, "gcr.io/s".data) ∈ kvsValueHit ∧
    scanOutput (renderOutput kvsValueHit true) "STABLE_REPO".data = "STABLE_REPO".data ∧
    (envOverlap.run [] "" (envOverlap.getenv "PWD" ++ "/workspace_status.sh") []).stdout
      = String.mk (renderOutput kvsOverlap true) ∧
    getBazelOption envOverlap "STABLE_REPO" [] =
      Res.ok "gcr.io/m"
        [Event.exec "" "/w/workspace_status.sh" []
          ⟨"STABLE_REPO_MIRROR gcr.io/m\nSTABLE_REPO gcr.io/s\n", "", none⟩] := by
  refine ⟨?_, ?_, ?_, ?_, ?_, ?_, ?_, ?_, ?_, ?_, ?_, ?_, ?_⟩ <;> decide

end E2E
